import Mathlib

/-!
Shallow embedding of the transcript acquisition pipeline of
`src/transcript_extractor.py`, together with the transcript route of
`src/app.py`, and proofs about it.

Modelling conventions:
* Python strings are Lean `String`s; all scanning primitives (`split`,
  `strip`, substring tests, the regular expressions of the video-id
  resolver) are implemented from scratch over `List Char` so that they are
  executable and kernel-reducible.
* Python floats are modelled as exact decimal numbers `m / 10 ^ e`
  (structure `Dec`); the arithmetic performed on them by the source
  (floor division, modulo by a positive integer, fixed-point rendering)
  is exact at this granularity.
* Network and library effects (yt-dlp metadata fetches, proxy health
  probes, the secondary caption API, XML tree construction) are modelled
  as oracle parameters supplying their observable results; everything the
  repository computes from those results is embedded faithfully.
-/

/-- Python `str.strip()`: drop whitespace from both ends. -/
def pyStrip (l : List Char) : List Char :=
  ((l.dropWhile Char.isWhitespace).reverse.dropWhile Char.isWhitespace).reverse

/-- `leadsWith pat l` : `l` starts with `pat` (character-wise). -/
def leadsWith : List Char → List Char → Bool
  | [], _ => true
  | _ :: _, [] => false
  | a :: as, b :: bs => if a = b then leadsWith as bs else false

/-- Python `pat in s` : some suffix of `l` starts with `pat`. -/
def containsSeq (pat : List Char) : List Char → Bool
  | [] => leadsWith pat []
  | c :: rest => leadsWith pat (c :: rest) || containsSeq pat rest

/-- Fuel-indexed splitter; the fuel is an upper bound on the input length,
which keeps the recursion structural (and hence kernel-reducible). -/
def splitSeqF (a : Char) (sep : List Char) : ℕ → List Char → List (List Char)
  | _, [] => [[]]
  | 0, l => [l]
  | fuel + 1, c :: rest =>
    if leadsWith (a :: sep) (c :: rest) then
      [] :: splitSeqF a sep fuel (rest.drop sep.length)
    else
      match splitSeqF a sep fuel rest with
      | [] => [[c]]
      | h :: t => (c :: h) :: t

/-- Python `s.split(sep)` for the non-empty separator `a :: sep`:
split at each leftmost, non-overlapping occurrence of the separator. -/
def splitSeq (a : Char) (sep : List Char) (l : List Char) : List (List Char) :=
  splitSeqF a sep l.length l

/-- Python `sep.join(parts)`. -/
def joinWith (sep : List Char) : List (List Char) → List Char
  | [] => []
  | [x] => x
  | x :: xs => x ++ sep ++ joinWith sep xs

/-! ## Video identifier resolver (`get_youtube_video_id`) -/

/-- One character of the platform identifier alphabet `[0-9A-Za-z_-]`. -/
def idChar (c : Char) : Bool :=
  c.isDigit || c.isUpper || c.isLower || c == '_' || c == '-'

/-- The capture group `([0-9A-Za-z_-]{11})`: exactly eleven identifier
characters taken from the front of `l`. -/
def grabId (l : List Char) : Option (List Char) :=
  let c := l.take 11
  if c.length == 11 && c.all idChar then some c else none

/-- Try the literal alternatives of a pattern, in order, at one position. -/
def tryLits : List (List Char) → List Char → Option (List Char)
  | [], _ => none
  | lit :: more, l =>
    if leadsWith lit l then
      match grabId (l.drop lit.length) with
      | some r => some r
      | none => tryLits more l
    else tryLits more l

/-- `re.search` for a pattern of the form `(?:lit1|lit2|...)([0-9A-Za-z_-]{11})`:
leftmost position wins, alternatives tried in order at each position. -/
def searchPat (lits : List (List Char)) : List Char → Option (List Char)
  | [] => none
  | c :: rest =>
    match tryLits lits (c :: rest) with
    | some r => some r
    | none => searchPat lits rest

/-- The sub-pattern `v=([0-9A-Za-z_-]{11})` tried at the current position. -/
def vMatchHere (l : List Char) : Option (List Char) :=
  if leadsWith ['v', '='] l then grabId (l.drop 2) else none

/-- Greedy `.*v=([0-9A-Za-z_-]{11})`: `.` does not match a newline, and the
greedy star prefers the rightmost reachable occurrence. -/
def watchScan : List Char → Option (List Char)
  | [] => none
  | c :: rest =>
    match (if c = '\n' then none else watchScan rest) with
    | some r => some r
    | none => vMatchHere (c :: rest)

def watchLit : List Char := "youtube.com/watch?".data

/-- `re.search` for `youtube\.com/watch\?.*v=([0-9A-Za-z_-]{11})`. -/
def searchWatch : List Char → Option (List Char)
  | [] => none
  | c :: rest =>
    match
      (if leadsWith watchLit (c :: rest) then
        watchScan ((c :: rest).drop watchLit.length)
      else none) with
    | some r => some r
    | none => searchWatch rest

def p1Lits : List (List Char) :=
  ["v=".data, "youtu.be/".data, "youtube.com/shorts/".data]

def embedLit : List Char := "youtube.com/embed/".data

def vLit : List Char := "youtube.com/v/".data

/-- `get_youtube_video_id` (transcript_extractor.py, lines 56-82): try the
four identifier patterns in order and return the first capture; `None` when
the url is empty or no pattern matches. -/
def get_youtube_video_id (url : String) : Option String :=
  if url.data.isEmpty then none
  else
    match searchPat p1Lits url.data with
    | some r => some (String.mk r)
    | none =>
      match searchPat [embedLit] url.data with
      | some r => some (String.mk r)
      | none =>
        match searchPat [vLit] url.data with
        | some r => some (String.mk r)
        | none =>
          match searchWatch url.data with
          | some r => some (String.mk r)
          | none => none

/-! ## WebVTT parsing (`parse_vtt_content`) -/

/-- A normalized transcript segment of the primary (yt-dlp) path. -/
structure Segment where
  timestamp : String
  text : String
deriving DecidableEq

/-- `re.sub(r'<[^>]+>', '', s)` as a left-to-right scan.  The first
argument is `none` outside a candidate tag and `some body` (reversed
characters read since `<`) inside one; a candidate that reaches `>` with a
non-empty body is deleted, anything else is emitted verbatim. -/
def stripTagsGo : Option (List Char) → List Char → List Char
  | none, [] => []
  | none, c :: rest =>
    if c = '<' then stripTagsGo (some []) rest else c :: stripTagsGo none rest
  | some body, [] => '<' :: body.reverse
  | some body, c :: rest =>
    if c = '>' then
      if body.isEmpty then '<' :: '>' :: stripTagsGo none rest
      else stripTagsGo none rest
    else stripTagsGo (some (c :: body)) rest

def stripTags (l : List Char) : List Char := stripTagsGo none l

/-- Emit one cue: a segment is produced only when at least one text line
survived tag stripping, with text lines joined by single spaces. -/
def emitCue (start : List Char) (acc : List (List Char)) : List Segment :=
  if acc.isEmpty then [] else [⟨String.mk start, String.mk (joinWith [' '] acc)⟩]

/-- The control state of the line loop of `parse_vtt_content`: scanning for
a timestamp line, or collecting the text lines of the cue started at
`start` with the lines gathered so far in `acc`. -/
inductive VttMode where
  | scan
  | collect (start : List Char) (acc : List (List Char))

/-- The line loop of `parse_vtt_content` (lines 381-414).  In `scan` mode a
stripped line containing `-->` starts a cue; `line.split(' --> ')[1]`
raises (cue skipped) when the split yields a single part, and
`...split()[0]` raises when the second part is all whitespace.  In
`collect` mode, stripped, tag-stripped, non-empty text lines are gathered
until a blank line or end of input, the cue is emitted, and scanning
resumes after the blank line. -/
def vttGo : VttMode → List String → List Segment
  | .scan, [] => []
  | .scan, l :: rest =>
    let line := pyStrip l.data
    if containsSeq "-->".data line then
      match splitSeq ' ' "--> ".data line with
      | p0 :: p1 :: _ =>
        if (p1.dropWhile Char.isWhitespace).isEmpty then vttGo .scan rest
        else vttGo (.collect (pyStrip p0) []) rest
      | _ => vttGo .scan rest
    else vttGo .scan rest
  | .collect st acc, [] => emitCue st acc
  | .collect st acc, x :: more =>
    if (pyStrip x.data).isEmpty then emitCue st acc ++ vttGo .scan more
    else
      let t := stripTags (pyStrip x.data)
      vttGo (.collect st (if t.isEmpty then acc else acc ++ [t])) more

def parseVttLines (lines : List String) : List Segment := vttGo .scan lines

/-- `parse_vtt_content` on a whole payload: Python `content.split('\n')`. -/
def parse_vtt_content (content : String) : List Segment :=
  parseVttLines ((splitSeq '\n' [] content.data).map String.mk)

/-! ## Exact decimal model of Python floats -/

/-- An exact decimal number `m / 10 ^ e`: the model of the Python floats
appearing in the pipeline (caption start offsets and timestamps).  The
arithmetic the source performs on them (floor division and modulo by a
positive integer, fixed-point rendering) is exact at this granularity. -/
structure Dec where
  m : ℤ
  e : ℕ
deriving DecidableEq

def Dec.toRat (d : Dec) : ℚ := (d.m : ℚ) / (10 : ℚ) ^ d.e

/-- `int(float(x))`: truncation toward zero. -/
def Dec.trunc (d : Dec) : ℤ := Int.tdiv d.m ((10 : ℤ) ^ d.e)

def natVal (l : List Char) : ℕ :=
  l.foldl (fun a c => a * 10 + (c.toNat - '0'.toNat)) 0

/-- Python `float(s)` restricted to plain decimal literals
(optional sign, digits, optional fraction); a string of any other shape is
a `ValueError`, modelled as `none`. -/
def parseFloat? (s : String) : Option Dec :=
  let t := pyStrip s.data
  let st : ℤ × List Char :=
    match t with
    | '+' :: r => (1, r)
    | '-' :: r => (-1, r)
    | r => (1, r)
  let ds := st.2.takeWhile Char.isDigit
  match st.2.dropWhile Char.isDigit with
  | [] => if ds.isEmpty then none else some ⟨st.1 * natVal ds, 0⟩
  | '.' :: fr =>
    if fr.all Char.isDigit && !(ds.isEmpty && fr.isEmpty) then
      some ⟨st.1 * (natVal ds * 10 ^ fr.length + natVal fr), fr.length⟩
    else none
  | _ => none

/-- Left-pad with `'0'` to width `w` (Python's `0`-fill). -/
def padZeros (w : ℕ) (s : List Char) : List Char :=
  List.replicate (w - s.length) '0' ++ s

/-- `f"{n:02d}"`. -/
def pad2 (n : ℤ) : List Char := padZeros 2 (toString n).data

/-- `f"{x:06.3f}"` for the exact value `num / den` (`den > 0` in every
use): round to three decimals (ties to even), zero-pad to width 6. -/
def fmt063 (num den : ℤ) : List Char :=
  let M := num * 1000
  let f := M / den
  let r2 := 2 * (M - den * f)
  let mm := if r2 < den then f else if den < r2 then f + 1
    else if f % 2 = 0 then f else f + 1
  padZeros 6 ((toString (mm / 1000)).data ++ '.' :: padZeros 3 (toString (mm % 1000)).data)

/-- `seconds_to_timestamp` (lines 452-457): `HH:MM:SS.mmm` via Python `//`
and `%` (floor semantics), over the exact decimal model. -/
def seconds_to_timestamp (s : Dec) : String :=
  let D : ℤ := (10 : ℤ) ^ s.e
  let hours := s.m / (3600 * D)
  let modH := s.m - 3600 * D * hours
  let minutes := modH / (60 * D)
  let modM := s.m % (60 * D)
  String.mk (pad2 hours ++ ':' :: pad2 minutes ++ ':' :: fmt063 modM D)

/-! ## Timed-text XML parsing (`parse_srv_content`) -/

/-- One `<text>` element of an already-built XML tree: optional `start` and
`dur` attributes and optional text content (the tree construction itself is
done by the external `xml.etree` library). -/
structure TextElem where
  start : Option String
  dur : Option String
  content : Option String
deriving DecidableEq

/-- The element loop of `parse_srv_content` (lines 429-445): default the
`start` attribute to `"0"`, skip the element when `float(start)` raises,
keep elements whose text is non-blank after stripping. -/
def parse_srv_elems : List TextElem → List Segment
  | [] => []
  | e :: es =>
    (match parseFloat? (e.start.getD "0") with
     | none => []
     | some q =>
       let txt := pyStrip (e.content.getD "").data
       if txt.isEmpty then [] else [⟨seconds_to_timestamp q, String.mk txt⟩]) ++
    parse_srv_elems es

/-- `parse_srv_content` (lines 418-450): a tree-construction failure of
`ET.fromstring` is caught and yields the empty list. -/
def parse_srv_content (tree : Option (List TextElem)) : List Segment :=
  match tree with
  | none => []
  | some elems => parse_srv_elems elems

/-! ## Dispatch (`parse_subtitle_content`) -/

/-- A raw subtitle payload: its text, and the XML tree the external parser
would build from it (`none` when tree construction fails). -/
structure Payload where
  raw : String
  tree : Option (List TextElem)

/-- The final cleaning filter of `parse_subtitle_content`: keep segments
whose text is non-blank after stripping. -/
def keepSeg (s : Segment) : Bool := !(pyStrip s.text.data).isEmpty

/-- `parse_subtitle_content` (lines 341-374): dispatch on the payload text,
then drop blank-text segments; an unknown format returns the empty list. -/
def parse_subtitle_content (p : Payload) : List Segment :=
  if containsSeq "WEBVTT".data p.raw.data || containsSeq "-->".data p.raw.data then
    (parse_vtt_content p.raw).filter keepSeg
  else if containsSeq "<text".data p.raw.data && containsSeq "start=".data p.raw.data then
    (parse_srv_content p.tree).filter keepSeg
  else []

/-! ## Strategy enumeration and the yt-dlp loop -/

inductive Client where
  | web
  | android
  | ios
  | tv
deriving DecidableEq

/-- One retrieval strategy `(proxy_enabled, proxy_url, client_type)`. -/
structure Strategy where
  proxyEnabled : Bool
  proxyUrl : Option String
  client : Client
deriving DecidableEq

def clientOrder : List Client := [.web, .android, .ios, .tv]

/-- The strategy list built by `extract_transcript_youtube`
(lines 183-202): direct strategies for the four clients in order, then —
when `use_proxy` is set — at most one health-checked proxy (`[:1]` of the
working ones) with the `web` and `android` clients.  `test_proxy` performs
a network probe and is modelled by the `healthy` oracle. -/
def buildStrategies (use_proxy : Bool) (proxyList : List String)
    (healthy : String → Bool) : List Strategy :=
  let direct : List Strategy := clientOrder.map (fun c => ⟨false, none, c⟩)
  let proxyTier : List Strategy :=
    if use_proxy then
      ((((proxyList.filter healthy).take 1).map
        (fun p => [⟨true, some p, .web⟩, ⟨true, some p, .android⟩]))).flatten
    else []
  direct ++ proxyTier

/-- The observable outcome of one yt-dlp attempt under one strategy:
an exception, falsy metadata, metadata without usable caption tracks,
a failed subtitle download, or a downloaded payload — the last three also
carry the video title found in the metadata. -/
inductive FetchRes where
  | exn
  | noInfo
  | noTracks (title : String)
  | noContent (title : String)
  | payload (title : String) (p : Payload)

/-- The strategy loop of `extract_transcript_youtube` (lines 206-335),
returning the result pair together with the number of strategies attempted.
Mid-loop failures continue to the next strategy; the special last-attempt
returns of the source are the `[s]` case. -/
def runStrategies (fetch : Strategy → FetchRes) :
    List Strategy → (Option (List Segment) × Option String) × ℕ
  | [] => ((none, none), 0)
  | [s] =>
    (match fetch s with
     | .exn => (none, none)
     | .noInfo => (none, none)
     | .noTracks t => (none, some t)
     | .noContent t => (none, some t)
     | .payload t p =>
       let segs := parse_subtitle_content p
       if segs.isEmpty then (none, some t) else (some segs, some t), 1)
  | s :: rest =>
    match fetch s with
    | .payload t p =>
      let segs := parse_subtitle_content p
      if segs.isEmpty then
        let r := runStrategies fetch rest
        (r.1, r.2 + 1)
      else ((some segs, some t), 1)
    | _ =>
      let r := runStrategies fetch rest
      (r.1, r.2 + 1)

/-- `extract_transcript_youtube` (lines 163-339): resolve the video id
(hard failure before any strategy is built), then run the strategy loop. -/
def extract_transcript_youtube (url : String) (use_proxy : Bool)
    (proxyList : List String) (healthy : String → Bool)
    (fetch : Strategy → FetchRes) :
    (Option (List Segment) × Option String) × ℕ :=
  match get_youtube_video_id url with
  | none => ((none, none), 0)
  | some _ => runStrategies fetch (buildStrategies use_proxy proxyList healthy)

/-! ## Secondary backend and the orchestrator -/

/-- One timed caption item returned by the secondary caption API. -/
structure AltItem where
  start : Dec
  duration : Dec
  text : String
deriving DecidableEq

/-- A segment produced by the secondary path: a seconds offset, a duration
and the stripped text (`extract_transcript_alternative`, lines 486-494). -/
structure AltSegment where
  start : Dec
  duration : Dec
  text : String
deriving DecidableEq

/-- `extract_transcript_alternative` (lines 459-503), with the API
availability flag and the fetched item list as oracles; the final `ℕ`
counts upstream caption-API lookups actually performed.  A fetch that
raises is `fetched = none`. -/
def extract_transcript_alternative (url : String) (apiAvailable : Bool)
    (fetched : Option (List AltItem)) :
    (Option (List AltSegment) × Option String) × ℕ :=
  if !apiAvailable then ((none, none), 0)
  else
    match get_youtube_video_id url with
    | none => ((none, none), 0)
    | some vid =>
      match fetched with
      | none => ((none, none), 1)
      | some items =>
        if items.isEmpty then ((none, none), 1)
        else
          ((some (items.map (fun it => ⟨it.start, it.duration, String.mk (pyStrip it.text.data)⟩)),
            some ("Video " ++ vid)), 1)

/-- A successful orchestrator result: segments from the primary (yt-dlp)
path or from the secondary caption-API path (the two have different
shapes in the source: `timestamp`/`text` versus `start`/`duration`/`text`). -/
inductive TranscriptOut where
  | primary (segs : List Segment)
  | alt (segs : List AltSegment)
deriving DecidableEq

/-- The observable behaviour of one `extract_transcript` call: its returned
pair, the number of yt-dlp strategies attempted, the number of calls of
`extract_transcript_alternative`, and the number of upstream caption-API
lookups those calls performed. -/
structure ExtractTrace where
  result : Option TranscriptOut
  title : Option String
  primaryAttempts : ℕ
  altInvocations : ℕ
  altFetches : ℕ
deriving DecidableEq

/-- Python `a or b` on optional strings (`None` and `""` are falsy). -/
def pyOr (a b : Option String) : Option String :=
  match a with
  | some s => if s = "" then b else some s
  | none => b

/-- The url precheck of `extract_transcript` (line 520). -/
def domainOk (url : String) : Bool :=
  containsSeq "youtube.com".data url.data || containsSeq "youtu.be".data url.data

/-- The fallback half of `extract_transcript` (lines 532-541). -/
def altStep (url : String) (apiAvailable : Bool) (fetched : Option (List AltItem))
    (title : Option String) (nPrim : ℕ) : ExtractTrace :=
  let alt := extract_transcript_alternative url apiAvailable fetched
  match alt.1.1 with
  | some asegs =>
    if asegs.length > 0 then ⟨some (.alt asegs), pyOr alt.1.2 title, nPrim, 1, alt.2⟩
    else ⟨none, title, nPrim, 1, alt.2⟩
  | none => ⟨none, title, nPrim, 1, alt.2⟩

/-- `extract_transcript` (lines 505-545): domain precheck, primary yt-dlp
path, then — only when the primary produced no non-empty list — a single
call of the secondary backend; when both fail the primary's title is
returned. -/
def extract_transcript (url : String) (use_proxy : Bool) (proxyList : List String)
    (healthy : String → Bool) (fetch : Strategy → FetchRes)
    (apiAvailable : Bool) (fetched : Option (List AltItem)) : ExtractTrace :=
  if !(domainOk url) then ⟨none, none, 0, 0, 0⟩
  else
    let prim := extract_transcript_youtube url use_proxy proxyList healthy fetch
    match prim.1.1 with
    | some segs =>
      if segs.length > 0 then ⟨some (.primary segs), prim.1.2, prim.2, 0, 0⟩
      else altStep url apiAvailable fetched prim.1.2 prim.2
    | none => altStep url apiAvailable fetched prim.1.2 prim.2

/-! ## Paragraph formatter (`format_as_paragraphs`) -/

def endsDot (l : List Char) : Bool :=
  match l.getLast? with
  | some c => c == '.'
  | none => false

/-- The per-sentence normalisation of `format_as_paragraphs`: strip, then
append `'.'` unless the sentence already ends with one or equals the raw
last element of the split. -/
def processedSentence (lastRaw : List Char) (s : String) : List Char :=
  let sc := pyStrip s.data
  if endsDot sc = false ∧ sc ≠ lastRaw then sc ++ ['.'] else sc

/-- One iteration of the sentence loop of `format_as_paragraphs`
(lines 566-583): state is (finished paragraphs, current paragraph). -/
def paraStep (maxLen : ℕ) (lastRaw : List Char)
    (acc : List (List Char) × List Char) (s : String) :
    List (List Char) × List Char :=
  let sc0 := pyStrip s.data
  if sc0 = [] then acc
  else
    let sc := if endsDot sc0 = false ∧ sc0 ≠ lastRaw then sc0 ++ ['.'] else sc0
    if acc.2.length + sc.length + 1 > maxLen ∧ acc.2 ≠ [] then
      (acc.1 ++ [pyStrip acc.2], sc)
    else if acc.2 = [] then (acc.1, sc)
    else (acc.1, acc.2 ++ ' ' :: sc)

/-- `format_as_paragraphs` (lines 547-589). -/
def format_as_paragraphs (text : String) (maxLen : ℕ) : List String :=
  if text.data = [] then []
  else
    let sentences := (splitSeq '.' [' '] text.data).map String.mk
    let lastRaw := (sentences.getLastD "").data
    let r := sentences.foldl (paraStep maxLen lastRaw) ([], [])
    (if r.2 = [] then r.1 else r.1 ++ [pyStrip r.2]).map String.mk

/-! ## The transcript route of `app.py` -/

/-- The naive early video-id derivation of `extract_transcript_route`
(app.py, lines 126-131): string splitting covering only the
`youtube.com/watch?v=` and `youtu.be/` shapes. -/
def route_video_id (url : String) : Option String :=
  if containsSeq "youtube.com/watch?v=".data url.data then
    match splitSeq 'v' ['='] url.data with
    | _ :: p1 :: _ => some (String.mk ((splitSeq '&' [] p1).headD []))
    | _ => none
  else if containsSeq "youtu.be/".data url.data then
    match splitSeq 'y' "outu.be/".data url.data with
    | _ :: p1 :: _ => some (String.mk ((splitSeq '?' [] p1).headD []))
    | _ => none
  else none

/-- The display-time conversion of the route (app.py, lines 163-175):
`MM:SS` from the last two `:`-separated fields, `"00:00"` on any failure. -/
def displayTime (ts : String) : String :=
  if containsSeq [':'] ts.data then
    match (splitSeq ':' [] ts.data).reverse with
    | pLast :: pPrev :: _ =>
      match parseFloat? (String.mk pPrev), parseFloat? (String.mk pLast) with
      | some mins, some secs => String.mk (pad2 mins.trunc ++ ':' :: pad2 secs.trunc)
      | _, _ => "00:00"
    | _ => "00:00"
  else "00:00"

structure DisplaySeg where
  timestamp : String
  text : String
deriving DecidableEq

/-- The transcript-formatting loop of the route (app.py, lines 154-181):
cap to 500 segments, drop blank texts, convert timestamps for display; a
secondary-path segment has no `timestamp` key, so the default
`'00:00:00.000'` is used. -/
def routeFormat (out : TranscriptOut) : List DisplaySeg :=
  match out with
  | .primary segs =>
    (segs.take 500).foldr (fun s acc =>
      let t := pyStrip s.text.data
      if t = [] then acc else ⟨displayTime s.timestamp, String.mk t⟩ :: acc) []
  | .alt asegs =>
    (asegs.take 500).foldr (fun s acc =>
      let t := pyStrip s.text.data
      if t = [] then acc else ⟨displayTime "00:00:00.000", String.mk t⟩ :: acc) []

/-- The route's JSON envelope: an error response or the success payload
(the summary field, produced by the external summarizer, is not modelled). -/
inductive RouteResult where
  | errorResp (msg : String)
  | ok (video_id : Option String) (video_title : String)
      (transcript : List DisplaySeg) (total : ℕ)
deriving DecidableEq

/-- Python `a or b` with a string default. -/
def pyOrStr (a : Option String) (b : String) : String :=
  match a with
  | some s => if s = "" then b else s
  | none => b

def errNoTranscript (title : Option String) : String :=
  match title with
  | some t =>
    "Could not extract transcript from this video. Video \"" ++ t ++
      "\" may not have captions available or may be restricted."
  | none =>
    "Could not extract transcript from this video. The video may not have captions available, be private, or be restricted in your region."

def outIsEmpty (o : TranscriptOut) : Bool :=
  match o with
  | .primary segs => segs.isEmpty
  | .alt asegs => asegs.isEmpty

/-- `extract_transcript_route` (app.py, lines 112-196): strip the url,
reject an empty one, derive the naive `video_id`, run the extraction with
`use_proxy = True`, and build the response. -/
def extract_transcript_route (url : String) (proxyList : List String)
    (healthy : String → Bool) (fetch : Strategy → FetchRes)
    (apiAvailable : Bool) (fetched : Option (List AltItem)) : RouteResult :=
  let u := String.mk (pyStrip url.data)
  if u.data = [] then .errorResp "Please provide a YouTube URL"
  else
    let vid := route_video_id u
    let tr := extract_transcript u true proxyList healthy fetch apiAvailable fetched
    match tr.result with
    | none => .errorResp (errNoTranscript tr.title)
    | some out =>
      if outIsEmpty out then .errorResp (errNoTranscript tr.title)
      else
        let ft := routeFormat out
        .ok vid (pyOrStr tr.title "Unknown Title") ft ft.length

/-! ## Specification-side definitions used by the claims -/

/-- The four direct strategies, in the fixed client order
web, android, ios, tv. -/
def directStrategies : List Strategy :=
  [⟨false, none, .web⟩, ⟨false, none, .android⟩, ⟨false, none, .ios⟩, ⟨false, none, .tv⟩]

/-- `litDiesIn lit pre`: matching `lit` character-wise against `pre` hits a
mismatch before either is exhausted — so `lit` cannot match at the start of
`pre ++ l` for any continuation `l`. -/
def litDiesIn : List Char → List Char → Bool
  | [], _ => false
  | _ :: _, [] => false
  | a :: as, b :: bs => if a = b then litDiesIn as bs else true

def posClean (lits : List (List Char)) (pre : List Char) : Bool :=
  lits.all (fun lit => litDiesIn lit pre)

/-- Every literal of `lits` dies inside `pre` at every start position of
`pre`: scanning `pre ++ l` finds no match before position `pre.length`. -/
def preClean (lits : List (List Char)) : List Char → Bool
  | [] => true
  | c :: rest => posClean lits (c :: rest) && preClean lits rest

/-- A character allowed in a `HH:MM:SS.mmm` timestamp. -/
def isTsChar (c : Char) : Bool := c.isDigit || c == ':' || c == '.'

/-- A well-formed cue timestamp: non-empty, only digits, `':'` and `'.'`. -/
def wfTs (s : String) : Prop := s.data ≠ [] ∧ ∀ c ∈ s.data, isTsChar c = true

/-- A well-formed cue text line: non-blank and newline-free. -/
def wfTextLine (s : String) : Prop :=
  pyStrip s.data ≠ [] ∧ ∀ c ∈ s.data, c ≠ '\n'

/-- An abstract well-formed WebVTT cue. -/
structure Cue where
  start : String
  stop : String
  textLines : List String
deriving DecidableEq

def wfCue (c : Cue) : Prop :=
  wfTs c.start ∧ wfTs c.stop ∧ ∀ l ∈ c.textLines, wfTextLine l

instance (s : String) : Decidable (wfTs s) := by
  unfold wfTs; infer_instance

instance (s : String) : Decidable (wfTextLine s) := by
  unfold wfTextLine; infer_instance

instance (c : Cue) : Decidable (wfCue c) := by
  unfold wfCue; infer_instance

/-- The lines of one rendered cue: the timestamp line then the text lines. -/
def cueLines (c : Cue) : List String :=
  (c.start ++ " --> " ++ c.stop) :: c.textLines

/-- The cue blocks of a payload, each cue terminated by a blank line. -/
def vttBlocks : List Cue → List String
  | [] => []
  | c :: cs => cueLines c ++ [""] ++ vttBlocks cs

/-- A rendered WebVTT payload: header, blank line, then the cue blocks. -/
def renderVtt (cues : List Cue) : String :=
  String.mk (joinWith ['\n'] (("WEBVTT" :: "" :: vttBlocks cues).map String.data))

/-- The text lines of a cue that survive stripping and tag removal. -/
def visibleLines (c : Cue) : List (List Char) :=
  (c.textLines.map (fun s => stripTags (pyStrip s.data))).filter (fun t => !t.isEmpty)

/-- The segment a well-formed cue parses to, if any. -/
def cueSeg (c : Cue) : Option Segment :=
  if (visibleLines c).isEmpty then none
  else some ⟨c.start, String.mk (joinWith [' '] (visibleLines c))⟩

/-- Round a rational to the nearest integer, ties to even. -/
def rheQ (x : ℚ) : ℤ :=
  if x - ⌊x⌋ < 1 / 2 then ⌊x⌋
  else if (1 : ℚ) / 2 < x - ⌊x⌋ then ⌊x⌋ + 1
  else if ⌊x⌋ % 2 = 0 then ⌊x⌋ else ⌊x⌋ + 1

/-- Render a rational number of seconds with exactly three decimal places,
zero-padded to width 6 — the specification's reading of `f"{x:06.3f}"`. -/
def renderSecs3 (x : ℚ) : List Char :=
  let mm := rheQ (x * 1000)
  padZeros 6 ((toString (mm / 1000)).data ++ '.' :: padZeros 3 (toString (mm % 1000)).data)

/-- The claim's fixed-point rendering of a start offset `s` (in seconds):
hours = `⌊s / 3600⌋`, minutes = `⌊(s mod 3600) / 60⌋`, seconds =
`s mod 60` rendered with three decimals, all zero-padded. -/
def specTimestamp (s : ℚ) : String :=
  let hours := ⌊s / 3600⌋
  let minutes := ⌊(s - 3600 * ⌊s / 3600⌋) / 60⌋
  let secs := s - 60 * ⌊s / 60⌋
  String.mk (pad2 hours ++ ':' :: pad2 minutes ++ ':' :: renderSecs3 secs)

/-! # Theorems -/

/-! ## Generic helper lemmas -/

theorem string_mk_data (s : String) : String.mk s.data = s := by
  cases s; rfl

theorem string_length_eq (s : String) : s.length = s.data.length := rfl

theorem dropWhile_len_le (p : Char → Bool) : ∀ l : List Char,
    (l.dropWhile p).length ≤ l.length := by
  intro l
  induction l with
  | nil => simp
  | cons c rest ih =>
    by_cases h : p c
    · simp only [List.dropWhile_cons, h, if_true, List.length_cons]
      omega
    · simp [List.dropWhile_cons, h]

theorem pyStrip_length_le (l : List Char) : (pyStrip l).length ≤ l.length := by
  unfold pyStrip
  have h1 := dropWhile_len_le Char.isWhitespace l
  have h2 := dropWhile_len_le Char.isWhitespace (l.dropWhile Char.isWhitespace).reverse
  simp only [List.length_reverse] at *
  omega

/-! ## Claim C1: strategy enumeration -/

/-- Claim C1: with `use_proxy = false` the strategy list is exactly the four
direct strategies with clients web, android, ios, tv in that order and no
proxy strategy; with `use_proxy = true` at most the first healthy proxy is
appended, combined with exactly the `web` and `android` clients; when every
configured proxy fails its health probe the list degrades to the direct-only
strategies. -/
theorem c1_strategy_enumeration (pl : List String) (healthy : String → Bool) :
    buildStrategies false pl healthy = directStrategies ∧
    buildStrategies true pl healthy =
      directStrategies ++
        (match (pl.filter healthy).head? with
         | none => []
         | some p => [⟨true, some p, Client.web⟩, ⟨true, some p, Client.android⟩]) ∧
    ((∀ p ∈ pl, healthy p = false) → buildStrategies true pl healthy = directStrategies) := by
  refine ⟨rfl, ?_, ?_⟩
  · cases hf : pl.filter healthy with
    | nil => simp [buildStrategies, hf, directStrategies, clientOrder]
    | cons p t => simp [buildStrategies, hf, directStrategies, clientOrder, List.take]
  · intro hall
    have hf : pl.filter healthy = [] := by
      rw [List.filter_eq_nil_iff]
      intro a ha
      simp [hall a ha]
    simp [buildStrategies, hf, directStrategies, clientOrder]

theorem c1_strategy_enumeration_witness :
    buildStrategies true ["p1", "p2"] (fun _ => false) = directStrategies :=
  (c1_strategy_enumeration ["p1", "p2"] (fun _ => false)).2.2 (by intro p _; rfl)

/-! ## Claim C8: unresolvable url fails immediately -/

/-- Claim C8: when no video identifier can be resolved from the url, the
yt-dlp path returns `(None, None)` after zero strategy attempts, and the
orchestrator surfaces a no-transcript result with no title, having performed
zero yt-dlp strategy attempts and zero upstream caption-API lookups. -/
theorem c8_unresolvable_fails_immediately (url : String) (up : Bool)
    (pl : List String) (hy : String → Bool) (fetch : Strategy → FetchRes)
    (api : Bool) (fetched : Option (List AltItem))
    (h : get_youtube_video_id url = none) :
    extract_transcript_youtube url up pl hy fetch = ((none, none), 0) ∧
    (extract_transcript url up pl hy fetch api fetched).result = none ∧
    (extract_transcript url up pl hy fetch api fetched).title = none ∧
    (extract_transcript url up pl hy fetch api fetched).primaryAttempts = 0 ∧
    (extract_transcript url up pl hy fetch api fetched).altFetches = 0 := by
  have hyt : extract_transcript_youtube url up pl hy fetch = ((none, none), 0) := by
    simp [extract_transcript_youtube, h]
  have halt : extract_transcript_alternative url api fetched = ((none, none), 0) := by
    cases api <;> simp [extract_transcript_alternative, h]
  refine ⟨hyt, ?_⟩
  by_cases hd : domainOk url
  · simp [extract_transcript, hd, hyt, altStep, halt]
  · simp [extract_transcript, hd]

theorem c8_unresolvable_fails_immediately_witness :
    extract_transcript_youtube "https://youtube.com/" false [] (fun _ => false)
        (fun _ => FetchRes.exn) = ((none, none), 0) ∧
    (extract_transcript "https://youtube.com/" false [] (fun _ => false)
        (fun _ => FetchRes.exn) false none).result = none ∧
    (extract_transcript "https://youtube.com/" false [] (fun _ => false)
        (fun _ => FetchRes.exn) false none).title = none ∧
    (extract_transcript "https://youtube.com/" false [] (fun _ => false)
        (fun _ => FetchRes.exn) false none).primaryAttempts = 0 ∧
    (extract_transcript "https://youtube.com/" false [] (fun _ => false)
        (fun _ => FetchRes.exn) false none).altFetches = 0 :=
  c8_unresolvable_fails_immediately "https://youtube.com/" false [] (fun _ => false)
    (fun _ => FetchRes.exn) false none (by decide)


theorem splitSeqF_irrel (a : Char) (sep : List Char) :
    ∀ n m (l : List Char), l.length ≤ n → l.length ≤ m →
      splitSeqF a sep n l = splitSeqF a sep m l := by
  intro n
  induction n with
  | zero =>
    intro m l h1 _
    have hl : l = [] := List.length_eq_zero.mp (Nat.le_zero.mp h1)
    subst hl
    cases m <;> rfl
  | succ n ih =>
    intro m l h1 h2
    cases l with
    | nil => cases m <;> rfl
    | cons c rest =>
      cases m with
      | zero => simp at h2
      | succ m =>
        simp only [List.length_cons, Nat.succ_le_succ_iff] at h1 h2
        have hd : (rest.drop sep.length).length ≤ rest.length := by
          simp only [List.length_drop]; omega
        simp only [splitSeqF]
        rw [ih m (rest.drop sep.length) (le_trans hd h1) (le_trans hd h2),
          ih m rest h1 h2]

theorem splitSeq_nil (a : Char) (sep : List Char) : splitSeq a sep [] = [[]] := rfl

theorem splitSeq_cons (a : Char) (sep : List Char) (c : Char) (rest : List Char) :
    splitSeq a sep (c :: rest) =
      if leadsWith (a :: sep) (c :: rest) then
        [] :: splitSeq a sep (rest.drop sep.length)
      else
        match splitSeq a sep rest with
        | [] => [[c]]
        | h :: t => (c :: h) :: t := by
  show splitSeqF a sep (rest.length + 1) (c :: rest) = _
  have hd : (rest.drop sep.length).length ≤ rest.length := by
    simp only [List.length_drop]; omega
  simp only [splitSeqF]
  rw [splitSeqF_irrel a sep rest.length (rest.drop sep.length).length
      (rest.drop sep.length) hd (le_refl _)]
  rfl

/-! ## Claim C9: paragraph length bound (corrected) -/

/-- Claim C9 counterexample: a single sentence longer than `max_length`
becomes a paragraph on its own and exceeds the bound — `"abcdefgh"` with
`max_length = 5` yields the single paragraph `"abcdefgh"` of length 8. -/
theorem c9_counterexample :
    format_as_paragraphs "abcdefgh" 5 = ["abcdefgh"] ∧
    ¬(∀ p ∈ format_as_paragraphs "abcdefgh" 5, p.length ≤ 5) := by
  constructor
  · decide
  · intro h
    have := h "abcdefgh" (by decide)
    simp [string_length_eq] at this

/-- The loop body of `format_as_paragraphs`, restated through
`processedSentence`. -/
theorem paraStep_eq (maxLen : ℕ) (lastRaw : List Char)
    (acc : List (List Char) × List Char) (s : String) :
    paraStep maxLen lastRaw acc s =
      if pyStrip s.data = [] then acc
      else
        if acc.2.length + (processedSentence lastRaw s).length + 1 > maxLen ∧ acc.2 ≠ [] then
          (acc.1 ++ [pyStrip acc.2], processedSentence lastRaw s)
        else if acc.2 = [] then (acc.1, processedSentence lastRaw s)
        else (acc.1, acc.2 ++ ' ' :: processedSentence lastRaw s) := rfl

/-- The invariant of the sentence loop of `format_as_paragraphs`: every
finished paragraph is within the bound or is the strip of one processed
sentence, and the current paragraph is empty, within the bound, or one
processed sentence. -/
def paraInv (sentences : List String) (lastRaw : List Char) (maxLen : ℕ)
    (acc : List (List Char) × List Char) : Prop :=
  (∀ q ∈ acc.1, q.length ≤ maxLen ∨
    ∃ s ∈ sentences, q = pyStrip (processedSentence lastRaw s)) ∧
  (acc.2 = [] ∨ acc.2.length ≤ maxLen ∨
    ∃ s ∈ sentences, acc.2 = processedSentence lastRaw s)

theorem paraStep_inv (sentences : List String) (lastRaw : List Char) (maxLen : ℕ)
    (acc : List (List Char) × List Char) (s : String) (hs : s ∈ sentences)
    (h : paraInv sentences lastRaw maxLen acc) :
    paraInv sentences lastRaw maxLen (paraStep maxLen lastRaw acc s) := by
  obtain ⟨h1, h2⟩ := h
  rw [paraStep_eq]
  by_cases he : pyStrip s.data = []
  · simpa [he] using ⟨h1, h2⟩
  · simp only [he, if_false]
    by_cases hover : acc.2.length + (processedSentence lastRaw s).length + 1 > maxLen ∧ acc.2 ≠ []
    · rw [if_pos hover]
      refine ⟨?_, Or.inr (Or.inr ⟨s, hs, rfl⟩)⟩
      intro q hq
      rcases List.mem_append.mp hq with hq | hq
      · exact h1 q hq
      · simp only [List.mem_singleton] at hq
        subst hq
        rcases h2 with h2 | h2 | ⟨t, ht, h2⟩
        · exact absurd h2 hover.2
        · exact Or.inl (le_trans (pyStrip_length_le _) h2)
        · exact Or.inr ⟨t, ht, by rw [h2]⟩
    · rw [if_neg hover]
      by_cases hc : acc.2 = []
      · rw [if_pos hc]
        exact ⟨h1, Or.inr (Or.inr ⟨s, hs, rfl⟩)⟩
      · rw [if_neg hc]
        refine ⟨h1, Or.inr (Or.inl ?_)⟩
        have hle : ¬(acc.2.length + (processedSentence lastRaw s).length + 1 > maxLen) := by
          intro hgt
          exact hover ⟨hgt, hc⟩
        simp only [List.length_append, List.length_cons]
        omega

theorem paraFold_inv (sentences : List String) (lastRaw : List Char) (maxLen : ℕ) :
    ∀ (todo : List String) (acc : List (List Char) × List Char),
      (∀ s ∈ todo, s ∈ sentences) →
      paraInv sentences lastRaw maxLen acc →
      paraInv sentences lastRaw maxLen (todo.foldl (paraStep maxLen lastRaw) acc) := by
  intro todo
  induction todo with
  | nil => intro acc _ h; exact h
  | cons s rest ih =>
    intro acc hmem h
    simp only [List.foldl_cons]
    exact ih _ (fun t ht => hmem t (List.mem_cons_of_mem _ ht))
      (paraStep_inv sentences lastRaw maxLen acc s (hmem s (List.mem_cons_self _ _)) h)

/-- Claim C9 amended: every paragraph returned by `format_as_paragraphs`
has length at most `max_length` **or** consists of a single processed
sentence (a sentence longer than the bound is emitted as a paragraph of its
own, unsplit). -/
theorem c9_amended_paragraph_bound (text : String) (maxLen : ℕ) (p : String)
    (hp : p ∈ format_as_paragraphs text maxLen) :
    p.length ≤ maxLen ∨
      ∃ s ∈ (splitSeq '.' [' '] text.data).map String.mk,
        p.data = pyStrip (processedSentence
          (((splitSeq '.' [' '] text.data).map String.mk).getLastD "").data s) := by
  by_cases ht : text.data = []
  · simp [format_as_paragraphs, ht] at hp
  · rw [format_as_paragraphs] at hp
    simp only [ht, if_false] at hp
    set sentences := (splitSeq '.' [' '] text.data).map String.mk with hsent
    set lastRaw := (sentences.getLastD "").data with hlast
    have hinv := paraFold_inv sentences lastRaw maxLen sentences ([], [])
      (fun _ h => h) ⟨by simp, Or.inl rfl⟩
    set r := sentences.foldl (paraStep maxLen lastRaw) ([], []) with hr
    obtain ⟨hps, hcur⟩ := hinv
    rcases List.mem_map.mp hp with ⟨q, hq, hqeq⟩
    have hq' : q.length ≤ maxLen ∨
        ∃ s ∈ sentences, q = pyStrip (processedSentence lastRaw s) := by
      by_cases hc : r.2 = []
      · rw [hc] at hq
        simp only [List.append_nil] at hq
        exact hps q (by simpa [hc] using hq)
      · simp only [hc, if_false] at hq
        rcases List.mem_append.mp hq with hq | hq
        · exact hps q hq
        · simp only [List.mem_singleton] at hq
          subst hq
          rcases hcur with hcur | hcur | ⟨t, htm, hcur⟩
          · exact absurd hcur hc
          · exact Or.inl (le_trans (pyStrip_length_le _) hcur)
          · exact Or.inr ⟨t, htm, by rw [hcur]⟩
    rcases hq' with hq' | ⟨s, hsm, hq'⟩
    · left
      rw [← hqeq, string_length_eq]
      exact hq'
    · right
      exact ⟨s, hsm, by rw [← hqeq, hq']⟩

theorem c9_amended_paragraph_bound_witness :
    ("abcdefgh" : String).length ≤ 5 ∨
      ∃ s ∈ (splitSeq '.' [' '] ("abcdefgh" : String).data).map String.mk,
        ("abcdefgh" : String).data = pyStrip (processedSentence
          ((((splitSeq '.' [' '] ("abcdefgh" : String).data).map String.mk).getLastD "")).data s) :=
  c9_amended_paragraph_bound "abcdefgh" 5 "abcdefgh" (by decide)

/-! ## Claim C6: dispatch and error containment of `parse_subtitle_content` -/

/-- Claim C6: `parse_subtitle_content` always returns a list (it is a total
function of this model — every exception of the source is caught and
converted to a value): a payload matching neither the WebVTT condition
(`'WEBVTT' in content or '-->' in content`) nor the timed-text condition
(`'<text' in content and 'start=' in content`) yields `[]`; a timed-text
payload whose XML tree fails to parse yields `[]`; an element with a
non-numeric `start` attribute is skipped while the rest of the document is
still processed. -/
theorem c6_parse_subtitle_dispatch :
    (∀ p : Payload,
      containsSeq "WEBVTT".data p.raw.data = false →
      containsSeq "-->".data p.raw.data = false →
      (containsSeq "<text".data p.raw.data = false ∨
        containsSeq "start=".data p.raw.data = false) →
      parse_subtitle_content p = []) ∧
    (∀ raw : String,
      containsSeq "WEBVTT".data raw.data = false →
      containsSeq "-->".data raw.data = false →
      parse_subtitle_content ⟨raw, none⟩ = []) ∧
    (∀ (e : TextElem) (es : List TextElem),
      parseFloat? (e.start.getD "0") = none →
      parse_srv_elems (e :: es) = parse_srv_elems es) := by
  refine ⟨?_, ?_, ?_⟩
  · intro p h1 h2 h3
    rcases h3 with h3 | h3 <;> simp [parse_subtitle_content, h1, h2, h3]
  · intro raw h1 h2
    simp [parse_subtitle_content, h1, h2, parse_srv_content]
  · intro e es h
    simp [parse_srv_elems, h]

theorem c6_parse_subtitle_dispatch_witness :
    parse_subtitle_content ⟨"hello", none⟩ = [] ∧
    parse_subtitle_content ⟨"<text start=\"x\">", none⟩ = [] ∧
    parse_srv_elems [⟨some "x", none, some "hi"⟩, ⟨some "1", none, some "ok"⟩] =
      parse_srv_elems [⟨some "1", none, some "ok"⟩] :=
  ⟨c6_parse_subtitle_dispatch.1 ⟨"hello", none⟩ (by decide) (by decide)
      (Or.inl (by decide)),
    c6_parse_subtitle_dispatch.2.1 "<text start=\"x\">" (by decide) (by decide),
    c6_parse_subtitle_dispatch.2.2 ⟨some "x", none, some "hi"⟩
      [⟨some "1", none, some "ok"⟩] (by decide)⟩

/-! ## Claim C7: segment text invariant (corrected) -/

/-- Claim C7 counterexample: the secondary caption-API path strips each
item's text but does **not** drop items whose text is empty after
trimming — with the primary path failing and the secondary API returning a
single whitespace-only item, the successful result contains a segment whose
text is empty after trimming. -/
theorem c7_counterexample :
    (extract_transcript "https://youtu.be/abcdefghijk" false [] (fun _ => false)
        (fun _ => FetchRes.exn) true
        (some [⟨⟨0, 0⟩, ⟨0, 0⟩, "   "⟩])).result =
      some (TranscriptOut.alt [⟨⟨0, 0⟩, ⟨0, 0⟩, ""⟩]) ∧
    pyStrip ("" : String).data = [] := by
  constructor
  · decide
  · rfl

theorem runStrategies_primary_src (fetch : Strategy → FetchRes) :
    ∀ (L : List Strategy) (segs : List Segment),
      (runStrategies fetch L).1.1 = some segs →
      ∃ st t p, fetch st = FetchRes.payload t p ∧ segs = parse_subtitle_content p := by
  intro L
  induction L with
  | nil => intro segs h; simp [runStrategies] at h
  | cons s rest ih =>
    intro segs h
    cases rest with
    | nil =>
      cases hf : fetch s <;> simp [runStrategies, hf] at h
      case payload t p =>
        by_cases he : parse_subtitle_content p = [] <;> simp [he] at h
        exact ⟨s, t, p, hf, h.symm⟩
    | cons x xs =>
      cases hf : fetch s
      case payload t p =>
        by_cases he : parse_subtitle_content p = []
        · simp only [runStrategies, hf] at h
          rw [if_pos (by simp [he])] at h
          exact ih segs h
        · simp only [runStrategies, hf] at h
          rw [if_neg (by simp [he])] at h
          exact ⟨s, t, p, hf, (Option.some_injective _ h).symm⟩
      all_goals
        simp only [runStrategies, hf] at h
        exact ih segs h

theorem altStep_no_primary (url : String) (api : Bool)
    (fetched : Option (List AltItem)) (title : Option String) (n : ℕ)
    (segs : List Segment) :
    (altStep url api fetched title n).result ≠ some (.primary segs) := by
  simp only [altStep]
  cases h' : (extract_transcript_alternative url api fetched).1.1 with
  | none => simp [h']
  | some asegs =>
    simp only [h']
    by_cases hl : asegs.length > 0 <;> simp [hl]

/-- Claim C7 amended: every segment of the primary path (the output of
`parse_subtitle_content`, and hence every segment of a
`TranscriptOut.primary` result of `extract_transcript`) has text that is
non-empty after trimming; the secondary path returns each fetched item with
its text trimmed but does not drop items whose trimmed text is empty. -/
theorem c7_amended_segment_text (p0 : Payload) (s0 : Segment)
    (h0 : s0 ∈ parse_subtitle_content p0) :
    pyStrip s0.text.data ≠ [] ∧
    (∀ url up pl hy fetch api fetched segs s,
      (extract_transcript url up pl hy fetch api fetched).result =
        some (.primary segs) →
      s ∈ segs → pyStrip s.text.data ≠ []) ∧
    (∀ url api items asegs,
      (extract_transcript_alternative url api (some items)).1.1 = some asegs →
      asegs = items.map (fun it => ⟨it.start, it.duration, String.mk (pyStrip it.text.data)⟩)) := by
  have hparse : ∀ (p : Payload) (s : Segment),
      s ∈ parse_subtitle_content p → pyStrip s.text.data ≠ [] := by
    intro p s hs
    rw [parse_subtitle_content] at hs
    split at hs
    · have := (List.mem_filter.mp hs).2
      simpa [keepSeg, List.isEmpty_iff] using this
    · split at hs
      · have := (List.mem_filter.mp hs).2
        simpa [keepSeg, List.isEmpty_iff] using this
      · simp at hs
  refine ⟨hparse p0 s0 h0, ?_, ?_⟩
  · intro url up pl hy fetch api fetched segs s h hs
    rw [extract_transcript] at h
    by_cases hd : domainOk url
    · simp only [hd, Bool.not_true, if_false] at h
      cases hp : (extract_transcript_youtube url up pl hy fetch).1.1 with
      | none =>
        rw [hp] at h
        exact absurd h (altStep_no_primary _ _ _ _ _ _)
      | some segs' =>
        rw [hp] at h
        by_cases hl : segs'.length > 0
        · simp only [hl, if_true] at h
          have hseq : segs' = segs := by
            have := Option.some_injective _ h
            injection this
          rw [extract_transcript_youtube] at hp
          cases hid : get_youtube_video_id url with
          | none => rw [hid] at hp; simp at hp
          | some vid =>
            rw [hid] at hp
            obtain ⟨st, t, pp, _, hsegs⟩ :=
              runStrategies_primary_src fetch _ segs' hp
            exact hparse pp s (by rw [← hseq] at hs; rw [hsegs] at hs; exact hs)
        · simp only [hl, if_false] at h
          exact absurd h (altStep_no_primary _ _ _ _ _ _)
    · simp only [hd, Bool.not_false, if_true] at h
      simp at h
  · intro url api items asegs h
    cases api with
    | false => simp [extract_transcript_alternative] at h
    | true =>
      rw [extract_transcript_alternative] at h
      cases hid : get_youtube_video_id url with
      | none => rw [hid] at h; simp at h
      | some vid =>
        rw [hid] at h
        by_cases he : items.isEmpty <;> simp [he] at h
        exact h.symm

theorem c7_amended_segment_text_witness :
    pyStrip ((⟨"x", "hi"⟩ : Segment)).text.data ≠ [] :=
  (c7_amended_segment_text ⟨"x --> y\nhi", none⟩ ⟨"x", "hi"⟩ (by decide)).1

/-! ## Claim C2: the secondary-backend fallback (corrected) -/

/-- Claim C2 counterexample (two instances, one per defect).  First: for a
resolvable watch-url whose first yt-dlp attempt discovers the title `"T"`
but whose remaining attempts raise, the final no-transcript result carries
`title = none` — the title discovered at the first attempt is *not* the
returned one, because only the last attempt's title survives the loop.
Second: for the url `"v=abcdefghijk"`, which resolves to a video id but
fails the orchestrator's domain precheck, the secondary backend is invoked
zero times (not exactly once) even though it could have produced segments. -/
theorem c2_counterexample :
    ((fun s => if s.client = Client.web then FetchRes.noTracks "T" else FetchRes.exn)
        (⟨false, none, Client.web⟩ : Strategy) = FetchRes.noTracks "T" ∧
      get_youtube_video_id "https://www.youtube.com/watch?v=abcdefghijk" =
        some "abcdefghijk" ∧
      extract_transcript "https://www.youtube.com/watch?v=abcdefghijk" false []
          (fun _ => false)
          (fun s => if s.client = Client.web then FetchRes.noTracks "T" else FetchRes.exn)
          false none =
        ⟨none, none, 4, 1, 0⟩) ∧
    (get_youtube_video_id "v=abcdefghijk" = some "abcdefghijk" ∧
      extract_transcript "v=abcdefghijk" true [] (fun _ => false) (fun _ => FetchRes.exn)
          true (some [⟨⟨0, 0⟩, ⟨0, 0⟩, "hi"⟩]) =
        ⟨none, none, 0, 0, 0⟩) := by
  exact ⟨⟨rfl, by decide, by decide⟩, ⟨by decide, by decide⟩⟩

/-- Claim C2 amended: for every url passing the orchestrator's domain
precheck (`'youtube.com' in url or 'youtu.be' in url`), if the primary
yt-dlp path returns no segment list, `extract_transcript` invokes the
secondary caption backend exactly once; and if that also yields no
segments, it returns a no-transcript result whose title is the one returned
by the primary path — i.e. the title of the primary's final attempt
(possibly none), not the best title discovered across all attempts. -/
theorem c2_amended_fallback (url : String) (up : Bool) (pl : List String)
    (hy : String → Bool) (fetch : Strategy → FetchRes) (api : Bool)
    (fetched : Option (List AltItem))
    (hd : domainOk url = true)
    (hp : (extract_transcript_youtube url up pl hy fetch).1.1 = none) :
    (extract_transcript url up pl hy fetch api fetched).altInvocations = 1 ∧
    ((extract_transcript_alternative url api fetched).1.1 = none →
      (extract_transcript url up pl hy fetch api fetched).result = none ∧
      (extract_transcript url up pl hy fetch api fetched).title =
        (extract_transcript_youtube url up pl hy fetch).1.2) := by
  have hstep : extract_transcript url up pl hy fetch api fetched =
      altStep url api fetched (extract_transcript_youtube url up pl hy fetch).1.2
        (extract_transcript_youtube url up pl hy fetch).2 := by
    rw [extract_transcript]
    simp [hd, hp]
  rw [hstep]
  constructor
  · simp only [altStep]
    cases h' : (extract_transcript_alternative url api fetched).1.1 with
    | none => simp [h']
    | some asegs =>
      simp only [h']
      by_cases hl : asegs.length > 0 <;> simp [hl]
  · intro halt
    simp [altStep, halt]

theorem c2_amended_fallback_witness :
    (extract_transcript "https://youtu.be/abcdefghijk" false [] (fun _ => false)
        (fun _ => FetchRes.exn) false none).altInvocations = 1 ∧
    ((extract_transcript_alternative "https://youtu.be/abcdefghijk" false none).1.1 = none →
      (extract_transcript "https://youtu.be/abcdefghijk" false [] (fun _ => false)
          (fun _ => FetchRes.exn) false none).result = none ∧
      (extract_transcript "https://youtu.be/abcdefghijk" false [] (fun _ => false)
          (fun _ => FetchRes.exn) false none).title =
        (extract_transcript_youtube "https://youtu.be/abcdefghijk" false [] (fun _ => false)
          (fun _ => FetchRes.exn)).1.2) :=
  c2_amended_fallback "https://youtu.be/abcdefghijk" false [] (fun _ => false)
    (fun _ => FetchRes.exn) false none (by decide) (by decide)

/-! ## Resolver helper lemmas -/

theorem leadsWith_append_self : ∀ (s t : List Char), leadsWith s (s ++ t) = true := by
  intro s t
  induction s with
  | nil => rfl
  | cons a as ih => simp [leadsWith, ih]

theorem leadsWith_dies : ∀ (lit pre l : List Char),
    litDiesIn lit pre = true → leadsWith lit (pre ++ l) = false := by
  intro lit
  induction lit with
  | nil => intro pre l h; simp [litDiesIn] at h
  | cons a as ih =>
    intro pre l h
    cases pre with
    | nil => simp [litDiesIn] at h
    | cons b bs =>
      by_cases hab : a = b
      · rw [litDiesIn, if_pos hab] at h
        simpa [leadsWith, hab] using ih bs l h
      · simp [leadsWith, hab]

theorem tryLits_none_of_posClean (lits : List (List Char)) (pre l : List Char)
    (h : posClean lits pre = true) : tryLits lits (pre ++ l) = none := by
  induction lits with
  | nil => rfl
  | cons lit more ih =>
    rw [posClean, List.all_cons, Bool.and_eq_true] at h
    rw [tryLits, if_neg (by simp [leadsWith_dies lit pre l h.1])]
    exact ih (by rw [posClean]; exact h.2)

theorem searchPat_skip (lits : List (List Char)) :
    ∀ (pre l : List Char), preClean lits pre = true →
      searchPat lits (pre ++ l) = searchPat lits l := by
  intro pre
  induction pre with
  | nil => intro l _; rfl
  | cons c rest ih =>
    intro l h
    rw [preClean, Bool.and_eq_true] at h
    rw [List.cons_append, searchPat, ← List.cons_append,
      tryLits_none_of_posClean lits (c :: rest) l h.1]
    exact ih l h.2

theorem leadsWith_false_of_bad : ∀ (lit l : List Char),
    (∀ c ∈ l, idChar c = true) → (∃ c ∈ lit, idChar c = false) →
    leadsWith lit l = false := by
  intro lit
  induction lit with
  | nil => intro l _ h; simp at h
  | cons a as ih =>
    intro l hall hbad
    cases l with
    | nil => rfl
    | cons b bs =>
      by_cases hab : a = b
      · rcases hbad with ⟨c, hc, hcbad⟩
        rcases List.mem_cons.mp hc with hc | hc
        · subst hc
          rw [hab] at hcbad
          rw [hall b (List.mem_cons_self _ _)] at hcbad
          cases hcbad
        · rw [leadsWith, if_pos hab]
          exact ih bs (fun d hd => hall d (List.mem_cons_of_mem _ hd)) ⟨c, hc, hcbad⟩
      · simp [leadsWith, hab]

theorem tryLits_none_of_false (lits : List (List Char)) (l : List Char)
    (h : ∀ lit ∈ lits, leadsWith lit l = false) : tryLits lits l = none := by
  induction lits with
  | nil => rfl
  | cons lit more ih =>
    rw [tryLits, if_neg (by simp [h lit (List.mem_cons_self _ _)])]
    exact ih (fun t ht => h t (List.mem_cons_of_mem _ ht))

theorem searchPat_none_of_bad (lits : List (List Char))
    (hbad : ∀ lit ∈ lits, ∃ c ∈ lit, idChar c = false) :
    ∀ l : List Char, (∀ c ∈ l, idChar c = true) → searchPat lits l = none := by
  intro l
  induction l with
  | nil => intro _; rfl
  | cons c rest ih =>
    intro hall
    rw [searchPat, tryLits_none_of_false lits (c :: rest)
      (fun lit ht => leadsWith_false_of_bad lit (c :: rest) hall (hbad lit ht))]
    exact ih (fun d hd => hall d (List.mem_cons_of_mem _ hd))

theorem containsSeq_of_leads (pat l : List Char) (h : leadsWith pat l = true) :
    containsSeq pat l = true := by
  cases l with
  | nil => rw [containsSeq]; exact h
  | cons c rest => rw [containsSeq, h]; rfl

theorem containsSeq_tail (pat : List Char) (c : Char) (rest : List Char)
    (h : containsSeq pat (c :: rest) = false) : containsSeq pat rest = false := by
  rw [containsSeq, Bool.or_eq_false_iff] at h
  exact h.2

theorem containsSeq_drop (pat l : List Char) (h : containsSeq pat l = false) :
    ∀ n, containsSeq pat (l.drop n) = false := by
  induction l with
  | nil => intro n; simpa [List.drop_nil] using h
  | cons c rest ih =>
    intro n
    cases n with
    | zero => simpa using h
    | succ n => exact ih (containsSeq_tail pat c rest h) n

theorem tryLits_none_of_ncontains (lits : List (List Char)) (l : List Char)
    (h : ∀ lit ∈ lits, containsSeq lit l = false) : tryLits lits l = none := by
  refine tryLits_none_of_false lits l (fun lit ht => ?_)
  by_cases hl : leadsWith lit l = true
  · have hc := h lit ht
    rw [containsSeq_of_leads lit l hl] at hc
    cases hc
  · simpa using hl

theorem searchPat_none_of_ncontains (lits : List (List Char)) :
    ∀ l : List Char, (∀ lit ∈ lits, containsSeq lit l = false) →
      searchPat lits l = none := by
  intro l
  induction l with
  | nil => intro _; rfl
  | cons c rest ih =>
    intro h
    rw [searchPat, tryLits_none_of_ncontains lits (c :: rest) h]
    exact ih (fun lit ht => containsSeq_tail lit c rest (h lit ht))

theorem watchScan_none : ∀ l : List Char,
    containsSeq ['v', '='] l = false → watchScan l = none := by
  intro l
  induction l with
  | nil => intro _; rfl
  | cons c rest ih =>
    intro h
    have hlead : leadsWith ['v', '='] (c :: rest) = false := by
      by_cases hl : leadsWith ['v', '='] (c :: rest) = true
      · rw [containsSeq_of_leads _ _ hl] at h; cases h
      · simpa using hl
    rw [watchScan]
    rw [ih (containsSeq_tail _ c rest h)]
    simp only [ite_self]
    rw [vMatchHere, if_neg (by simp [hlead])]

theorem searchWatch_none : ∀ l : List Char,
    containsSeq ['v', '='] l = false → searchWatch l = none := by
  intro l
  induction l with
  | nil => intro _; rfl
  | cons c rest ih =>
    intro h
    rw [searchWatch]
    have hscan : watchScan ((c :: rest).drop watchLit.length) = none :=
      watchScan_none _ (containsSeq_drop _ _ h _)
    rw [ih (containsSeq_tail _ c rest h)]
    by_cases hl : leadsWith watchLit (c :: rest) = true
    · rw [if_pos hl, hscan]
    · rw [if_neg hl]

theorem grabId_full (id : List Char) (h11 : id.length = 11)
    (hall : ∀ c ∈ id, idChar c = true) : grabId id = some id := by
  have ht : id.take 11 = id := List.take_of_length_le (le_of_eq h11)
  rw [grabId]
  simp only [ht]
  rw [if_pos]
  rw [Bool.and_eq_true, beq_iff_eq]
  exact ⟨h11, List.all_eq_true.mpr hall⟩

theorem resolver_watch (id : String) (h11 : id.data.length = 11)
    (hall : ∀ c ∈ id.data, idChar c = true) :
    get_youtube_video_id ("https://www.youtube.com/watch?v=" ++ id) = some id := by
  have hd : ("https://www.youtube.com/watch?v=" ++ id).data =
      ("https://www.youtube.com/watch?" : String).data ++ ('v' :: '=' :: id.data) := rfl
  have hgrab := grabId_full id.data h11 hall
  have h1 : searchPat p1Lits ("https://www.youtube.com/watch?v=" ++ id).data = some id.data := by
    rw [hd, searchPat_skip p1Lits _ _ (by decide)]
    have htl : tryLits p1Lits ('v' :: '=' :: id.data) = some id.data := by
      simp [p1Lits, tryLits, leadsWith, hgrab]
    simp [searchPat, htl]
  have hne : ("https://www.youtube.com/watch?v=" ++ id).data.isEmpty = false := by
    rw [hd]; rfl
  simp only [get_youtube_video_id, hne, Bool.false_eq_true, if_false, h1, string_mk_data]

theorem resolver_shortlink (id : String) (h11 : id.data.length = 11)
    (hall : ∀ c ∈ id.data, idChar c = true) :
    get_youtube_video_id ("https://youtu.be/" ++ id) = some id := by
  have hd : ("https://youtu.be/" ++ id).data =
      ("https://" : String).data ++
        ('y' :: 'o' :: 'u' :: 't' :: 'u' :: '.' :: 'b' :: 'e' :: '/' :: id.data) := rfl
  have hgrab := grabId_full id.data h11 hall
  have h1 : searchPat p1Lits ("https://youtu.be/" ++ id).data = some id.data := by
    rw [hd, searchPat_skip p1Lits _ _ (by decide)]
    have htl : tryLits p1Lits
        ('y' :: 'o' :: 'u' :: 't' :: 'u' :: '.' :: 'b' :: 'e' :: '/' :: id.data) =
        some id.data := by
      simp [p1Lits, tryLits, leadsWith, hgrab]
    simp [searchPat, htl]
  have hne : ("https://youtu.be/" ++ id).data.isEmpty = false := by rw [hd]; rfl
  simp only [get_youtube_video_id, hne, Bool.false_eq_true, if_false, h1, string_mk_data]

theorem resolver_shorts (id : String) (h11 : id.data.length = 11)
    (hall : ∀ c ∈ id.data, idChar c = true) :
    get_youtube_video_id ("https://www.youtube.com/shorts/" ++ id) = some id := by
  have hd : ("https://www.youtube.com/shorts/" ++ id).data =
      ("https://www." : String).data ++
        ('y' :: 'o' :: 'u' :: 't' :: 'u' :: 'b' :: 'e' :: '.' :: 'c' :: 'o' :: 'm' :: '/' ::
          's' :: 'h' :: 'o' :: 'r' :: 't' :: 's' :: '/' :: id.data) := rfl
  have hgrab := grabId_full id.data h11 hall
  have h1 : searchPat p1Lits ("https://www.youtube.com/shorts/" ++ id).data = some id.data := by
    rw [hd, searchPat_skip p1Lits _ _ (by decide)]
    have htl : tryLits p1Lits
        ('y' :: 'o' :: 'u' :: 't' :: 'u' :: 'b' :: 'e' :: '.' :: 'c' :: 'o' :: 'm' :: '/' ::
          's' :: 'h' :: 'o' :: 'r' :: 't' :: 's' :: '/' :: id.data) = some id.data := by
      simp [p1Lits, tryLits, leadsWith, hgrab]
    simp [searchPat, htl]
  have hne : ("https://www.youtube.com/shorts/" ++ id).data.isEmpty = false := by rw [hd]; rfl
  simp only [get_youtube_video_id, hne, Bool.false_eq_true, if_false, h1, string_mk_data]

theorem resolver_embed (id : String) (h11 : id.data.length = 11)
    (hall : ∀ c ∈ id.data, idChar c = true) :
    get_youtube_video_id ("https://www.youtube.com/embed/" ++ id) = some id := by
  have hd1 : ("https://www.youtube.com/embed/" ++ id).data =
      ("https://www.youtube.com/embed/" : String).data ++ id.data := rfl
  have hd2 : ("https://www.youtube.com/embed/" ++ id).data =
      ("https://www." : String).data ++
        ('y' :: 'o' :: 'u' :: 't' :: 'u' :: 'b' :: 'e' :: '.' :: 'c' :: 'o' :: 'm' :: '/' ::
          'e' :: 'm' :: 'b' :: 'e' :: 'd' :: '/' :: id.data) := rfl
  have hgrab := grabId_full id.data h11 hall
  have h1 : searchPat p1Lits ("https://www.youtube.com/embed/" ++ id).data = none := by
    rw [hd1, searchPat_skip p1Lits _ _ (by decide)]
    exact searchPat_none_of_bad p1Lits (by decide) id.data hall
  have h2 : searchPat [embedLit] ("https://www.youtube.com/embed/" ++ id).data = some id.data := by
    rw [hd2, searchPat_skip [embedLit] _ _ (by decide)]
    have htl : tryLits [embedLit]
        ('y' :: 'o' :: 'u' :: 't' :: 'u' :: 'b' :: 'e' :: '.' :: 'c' :: 'o' :: 'm' :: '/' ::
          'e' :: 'm' :: 'b' :: 'e' :: 'd' :: '/' :: id.data) = some id.data := by
      simp [embedLit, tryLits, leadsWith, hgrab]
    simp [searchPat, htl]
  have hne : ("https://www.youtube.com/embed/" ++ id).data.isEmpty = false := by rw [hd1]; rfl
  simp only [get_youtube_video_id, hne, Bool.false_eq_true, if_false, h1, h2, string_mk_data]

theorem resolver_vpath (id : String) (h11 : id.data.length = 11)
    (hall : ∀ c ∈ id.data, idChar c = true) :
    get_youtube_video_id ("https://www.youtube.com/v/" ++ id) = some id := by
  have hd1 : ("https://www.youtube.com/v/" ++ id).data =
      ("https://www.youtube.com/v/" : String).data ++ id.data := rfl
  have hd2 : ("https://www.youtube.com/v/" ++ id).data =
      ("https://www." : String).data ++
        ('y' :: 'o' :: 'u' :: 't' :: 'u' :: 'b' :: 'e' :: '.' :: 'c' :: 'o' :: 'm' :: '/' ::
          'v' :: '/' :: id.data) := rfl
  have hgrab := grabId_full id.data h11 hall
  have h1 : searchPat p1Lits ("https://www.youtube.com/v/" ++ id).data = none := by
    rw [hd1, searchPat_skip p1Lits _ _ (by decide)]
    exact searchPat_none_of_bad p1Lits (by decide) id.data hall
  have h2 : searchPat [embedLit] ("https://www.youtube.com/v/" ++ id).data = none := by
    rw [hd1, searchPat_skip [embedLit] _ _ (by decide)]
    exact searchPat_none_of_bad [embedLit] (by decide) id.data hall
  have h3 : searchPat [vLit] ("https://www.youtube.com/v/" ++ id).data = some id.data := by
    rw [hd2, searchPat_skip [vLit] _ _ (by decide)]
    have htl : tryLits [vLit]
        ('y' :: 'o' :: 'u' :: 't' :: 'u' :: 'b' :: 'e' :: '.' :: 'c' :: 'o' :: 'm' :: '/' ::
          'v' :: '/' :: id.data) = some id.data := by
      simp [vLit, tryLits, leadsWith, hgrab]
    simp [searchPat, htl]
  have hne : ("https://www.youtube.com/v/" ++ id).data.isEmpty = false := by rw [hd1]; rfl
  simp only [get_youtube_video_id, hne, Bool.false_eq_true, if_false, h1, h2, h3, string_mk_data]

theorem resolver_unmatched (url : String)
    (hv : containsSeq "v=".data url.data = false)
    (hbe : containsSeq "youtu.be/".data url.data = false)
    (hsh : containsSeq "youtube.com/shorts/".data url.data = false)
    (hem : containsSeq "youtube.com/embed/".data url.data = false)
    (hvp : containsSeq "youtube.com/v/".data url.data = false) :
    get_youtube_video_id url = none := by
  have h1 : searchPat p1Lits url.data = none := by
    refine searchPat_none_of_ncontains p1Lits url.data (fun lit hm => ?_)
    simp only [p1Lits, List.mem_cons, List.mem_singleton] at hm
    rcases hm with rfl | rfl | rfl | h
    · exact hv
    · exact hbe
    · exact hsh
    · simp at h
  have h2 : searchPat [embedLit] url.data = none := by
    refine searchPat_none_of_ncontains [embedLit] url.data (fun lit hm => ?_)
    simp only [List.mem_singleton] at hm
    subst hm
    exact hem
  have h3 : searchPat [vLit] url.data = none := by
    refine searchPat_none_of_ncontains [vLit] url.data (fun lit hm => ?_)
    simp only [List.mem_singleton] at hm
    subst hm
    exact hvp
  have h4 : searchWatch url.data = none := searchWatch_none url.data hv
  by_cases he : url.data.isEmpty
  · simp only [get_youtube_video_id, he, if_true]
  · simp only [get_youtube_video_id, he, Bool.false_eq_true, if_false, h1, h2, h3, h4]

/-! ## Claim C5: the video identifier resolver -/

/-- Claim C5: for every supported url shape (`watch?v=`, `youtu.be/`,
`/shorts/`, `/embed/`, `/v/`) carrying a valid 11-character identifier over
`[0-9A-Za-z_-]`, the resolver returns that identifier; and for every url
containing none of the patterns' anchor substrings (`v=`, `youtu.be/`,
`youtube.com/shorts/`, `youtube.com/embed/`, `youtube.com/v/`) it returns
`none` — a hard failure with no fallback heuristics. -/
theorem c5_resolver (id : String) (h11 : id.data.length = 11)
    (hall : ∀ c ∈ id.data, idChar c = true) :
    get_youtube_video_id ("https://www.youtube.com/watch?v=" ++ id) = some id ∧
    get_youtube_video_id ("https://youtu.be/" ++ id) = some id ∧
    get_youtube_video_id ("https://www.youtube.com/shorts/" ++ id) = some id ∧
    get_youtube_video_id ("https://www.youtube.com/embed/" ++ id) = some id ∧
    get_youtube_video_id ("https://www.youtube.com/v/" ++ id) = some id ∧
    (∀ url : String,
      containsSeq "v=".data url.data = false →
      containsSeq "youtu.be/".data url.data = false →
      containsSeq "youtube.com/shorts/".data url.data = false →
      containsSeq "youtube.com/embed/".data url.data = false →
      containsSeq "youtube.com/v/".data url.data = false →
      get_youtube_video_id url = none) :=
  ⟨resolver_watch id h11 hall, resolver_shortlink id h11 hall,
    resolver_shorts id h11 hall, resolver_embed id h11 hall,
    resolver_vpath id h11 hall,
    fun url hv hbe hsh hem hvp => resolver_unmatched url hv hbe hsh hem hvp⟩

theorem c5_resolver_witness :
    get_youtube_video_id ("https://www.youtube.com/watch?v=" ++ "abcdefghijk") =
      some "abcdefghijk" ∧
    get_youtube_video_id ("https://youtu.be/" ++ "abcdefghijk") = some "abcdefghijk" ∧
    get_youtube_video_id ("https://www.youtube.com/shorts/" ++ "abcdefghijk") =
      some "abcdefghijk" ∧
    get_youtube_video_id ("https://www.youtube.com/embed/" ++ "abcdefghijk") =
      some "abcdefghijk" ∧
    get_youtube_video_id ("https://www.youtube.com/v/" ++ "abcdefghijk") =
      some "abcdefghijk" ∧
    (∀ url : String,
      containsSeq "v=".data url.data = false →
      containsSeq "youtu.be/".data url.data = false →
      containsSeq "youtube.com/shorts/".data url.data = false →
      containsSeq "youtube.com/embed/".data url.data = false →
      containsSeq "youtube.com/v/".data url.data = false →
      get_youtube_video_id url = none) :=
  c5_resolver "abcdefghijk" (by decide) (by decide)

/-! ## Claim C10: the route's naive video_id derivation -/

theorem containsSeq_skip (pat : List Char) :
    ∀ (pre l : List Char), preClean [pat] pre = true →
      containsSeq pat (pre ++ l) = containsSeq pat l := by
  intro pre
  induction pre with
  | nil => intro l _; rfl
  | cons c rest ih =>
    intro l h
    rw [preClean, Bool.and_eq_true] at h
    have hdies : litDiesIn pat (c :: rest) = true := by
      have := h.1
      rw [posClean, List.all_cons, Bool.and_eq_true] at this
      exact this.1
    rw [List.cons_append, containsSeq, ← List.cons_append,
      leadsWith_dies pat (c :: rest) l hdies, Bool.false_or]
    exact ih l h.2

theorem containsSeq_none_of_bad (pat : List Char)
    (hbad : ∃ c ∈ pat, idChar c = false) :
    ∀ l : List Char, (∀ c ∈ l, idChar c = true) → containsSeq pat l = false := by
  intro l
  induction l with
  | nil =>
    intro _
    rw [containsSeq]
    rcases hbad with ⟨c, hc, _⟩
    cases pat with
    | nil => simp at hc
    | cons a as => rfl
  | cons c rest ih =>
    intro hall
    rw [containsSeq, leadsWith_false_of_bad pat (c :: rest) hall hbad, Bool.false_or]
    exact ih (fun d hd => hall d (List.mem_cons_of_mem _ hd))

theorem idChar_not_ws (c : Char) (h : idChar c = true) : c.isWhitespace = false := by
  by_contra hw
  simp only [Bool.not_eq_false, Char.isWhitespace, Bool.or_eq_true,
    decide_eq_true_eq] at hw
  rcases hw with ((rfl | rfl) | rfl) | rfl <;> simp [idChar] at h

theorem dropWhile_eq_self_of_all (p : Char → Bool) (l : List Char)
    (h : ∀ c ∈ l, p c = false) : l.dropWhile p = l := by
  cases l with
  | nil => rfl
  | cons c rest =>
    rw [List.dropWhile_cons, if_neg (by simp [h c (List.mem_cons_self _ _)])]

theorem pyStrip_all_nonws (l : List Char)
    (h : ∀ c ∈ l, c.isWhitespace = false) : pyStrip l = l := by
  rw [pyStrip, dropWhile_eq_self_of_all _ l h,
    dropWhile_eq_self_of_all _ l.reverse (fun c hc => h c (List.mem_reverse.mp hc)),
    List.reverse_reverse]

theorem route_ok_vid (url : String) (hstrip : pyStrip url.data = url.data)
    (hne : ¬(url.data = []))
    (pl : List String) (hy : String → Bool) (fetch : Strategy → FetchRes)
    (api : Bool) (fetched : Option (List AltItem)) (v : Option String)
    (t : String) (tl : List DisplaySeg) (n : ℕ)
    (h : extract_transcript_route url pl hy fetch api fetched =
      RouteResult.ok v t tl n) :
    v = route_video_id url := by
  simp only [extract_transcript_route, hstrip, string_mk_data] at h
  rw [if_neg hne] at h
  cases hres : (extract_transcript url true pl hy fetch api fetched).result with
  | none => simp only [hres] at h; simp at h
  | some out =>
    simp only [hres] at h
    by_cases hoe : outIsEmpty out = true
    · rw [if_pos hoe] at h; simp at h
    · rw [if_neg hoe] at h
      injection h with h1 _
      exact h1.symm

/-- Claim C10: the HTTP route derives its `video_id` response field by
naive string splitting covering only the `youtube.com/watch?v=` and
`youtu.be/` shapes, independently of the resolver; for every `/shorts/`,
`/embed/` or `/v/` url with a valid identifier the resolver succeeds, yet
the route's derivation yields `none`, so every successful response for such
a url carries `video_id = none`. -/
theorem c10_route_video_id (id : String) (h11 : id.data.length = 11)
    (hall : ∀ c ∈ id.data, idChar c = true) :
    (route_video_id ("https://www.youtube.com/shorts/" ++ id) = none ∧
      get_youtube_video_id ("https://www.youtube.com/shorts/" ++ id) = some id ∧
      ∀ pl hy fetch api fetched v t tl n,
        extract_transcript_route ("https://www.youtube.com/shorts/" ++ id)
          pl hy fetch api fetched = RouteResult.ok v t tl n → v = none) ∧
    (route_video_id ("https://www.youtube.com/embed/" ++ id) = none ∧
      get_youtube_video_id ("https://www.youtube.com/embed/" ++ id) = some id ∧
      ∀ pl hy fetch api fetched v t tl n,
        extract_transcript_route ("https://www.youtube.com/embed/" ++ id)
          pl hy fetch api fetched = RouteResult.ok v t tl n → v = none) ∧
    (route_video_id ("https://www.youtube.com/v/" ++ id) = none ∧
      get_youtube_video_id ("https://www.youtube.com/v/" ++ id) = some id ∧
      ∀ pl hy fetch api fetched v t tl n,
        extract_transcript_route ("https://www.youtube.com/v/" ++ id)
          pl hy fetch api fetched = RouteResult.ok v t tl n → v = none) := by
  refine ⟨?_, ?_, ?_⟩
  · have hd : ("https://www.youtube.com/shorts/" ++ id).data =
        ("https://www.youtube.com/shorts/" : String).data ++ id.data := rfl
    have hw : containsSeq "youtube.com/watch?v=".data
        ("https://www.youtube.com/shorts/" ++ id).data = false := by
      rw [hd, containsSeq_skip _ _ _ (by decide)]
      exact containsSeq_none_of_bad _ (by decide) id.data hall
    have hbe : containsSeq "youtu.be/".data
        ("https://www.youtube.com/shorts/" ++ id).data = false := by
      rw [hd, containsSeq_skip _ _ _ (by decide)]
      exact containsSeq_none_of_bad _ (by decide) id.data hall
    have hvid : route_video_id ("https://www.youtube.com/shorts/" ++ id) = none := by
      simp only [route_video_id, hw, hbe, Bool.false_eq_true, if_false]
    have hstrip : pyStrip ("https://www.youtube.com/shorts/" ++ id).data =
        ("https://www.youtube.com/shorts/" ++ id).data := by
      refine pyStrip_all_nonws _ (fun c hc => ?_)
      rw [hd] at hc
      rcases List.mem_append.mp hc with hc | hc
      · exact (show ∀ x ∈ ("https://www.youtube.com/shorts/" : String).data, x.isWhitespace = false by decide) c hc
      · exact idChar_not_ws c (hall c hc)
    have hne : ¬(("https://www.youtube.com/shorts/" ++ id).data = []) := by
      intro hnil; rw [hd] at hnil; simp at hnil
    refine ⟨hvid, resolver_shorts id h11 hall, ?_⟩
    intro pl hy fetch api fetched v t tl n h
    rw [route_ok_vid _ hstrip hne pl hy fetch api fetched v t tl n h, hvid]
  · have hd : ("https://www.youtube.com/embed/" ++ id).data =
        ("https://www.youtube.com/embed/" : String).data ++ id.data := rfl
    have hw : containsSeq "youtube.com/watch?v=".data
        ("https://www.youtube.com/embed/" ++ id).data = false := by
      rw [hd, containsSeq_skip _ _ _ (by decide)]
      exact containsSeq_none_of_bad _ (by decide) id.data hall
    have hbe : containsSeq "youtu.be/".data
        ("https://www.youtube.com/embed/" ++ id).data = false := by
      rw [hd, containsSeq_skip _ _ _ (by decide)]
      exact containsSeq_none_of_bad _ (by decide) id.data hall
    have hvid : route_video_id ("https://www.youtube.com/embed/" ++ id) = none := by
      simp only [route_video_id, hw, hbe, Bool.false_eq_true, if_false]
    have hstrip : pyStrip ("https://www.youtube.com/embed/" ++ id).data =
        ("https://www.youtube.com/embed/" ++ id).data := by
      refine pyStrip_all_nonws _ (fun c hc => ?_)
      rw [hd] at hc
      rcases List.mem_append.mp hc with hc | hc
      · exact (show ∀ x ∈ ("https://www.youtube.com/embed/" : String).data, x.isWhitespace = false by decide) c hc
      · exact idChar_not_ws c (hall c hc)
    have hne : ¬(("https://www.youtube.com/embed/" ++ id).data = []) := by
      intro hnil; rw [hd] at hnil; simp at hnil
    refine ⟨hvid, resolver_embed id h11 hall, ?_⟩
    intro pl hy fetch api fetched v t tl n h
    rw [route_ok_vid _ hstrip hne pl hy fetch api fetched v t tl n h, hvid]
  · have hd : ("https://www.youtube.com/v/" ++ id).data =
        ("https://www.youtube.com/v/" : String).data ++ id.data := rfl
    have hw : containsSeq "youtube.com/watch?v=".data
        ("https://www.youtube.com/v/" ++ id).data = false := by
      rw [hd, containsSeq_skip _ _ _ (by decide)]
      exact containsSeq_none_of_bad _ (by decide) id.data hall
    have hbe : containsSeq "youtu.be/".data
        ("https://www.youtube.com/v/" ++ id).data = false := by
      rw [hd, containsSeq_skip _ _ _ (by decide)]
      exact containsSeq_none_of_bad _ (by decide) id.data hall
    have hvid : route_video_id ("https://www.youtube.com/v/" ++ id) = none := by
      simp only [route_video_id, hw, hbe, Bool.false_eq_true, if_false]
    have hstrip : pyStrip ("https://www.youtube.com/v/" ++ id).data =
        ("https://www.youtube.com/v/" ++ id).data := by
      refine pyStrip_all_nonws _ (fun c hc => ?_)
      rw [hd] at hc
      rcases List.mem_append.mp hc with hc | hc
      · exact (show ∀ x ∈ ("https://www.youtube.com/v/" : String).data, x.isWhitespace = false by decide) c hc
      · exact idChar_not_ws c (hall c hc)
    have hne : ¬(("https://www.youtube.com/v/" ++ id).data = []) := by
      intro hnil; rw [hd] at hnil; simp at hnil
    refine ⟨hvid, resolver_vpath id h11 hall, ?_⟩
    intro pl hy fetch api fetched v t tl n h
    rw [route_ok_vid _ hstrip hne pl hy fetch api fetched v t tl n h, hvid]

theorem c10_route_video_id_witness :
    (route_video_id ("https://www.youtube.com/shorts/" ++ "abcdefghijk") = none ∧
      get_youtube_video_id ("https://www.youtube.com/shorts/" ++ "abcdefghijk") =
        some "abcdefghijk" ∧
      ∀ pl hy fetch api fetched v t tl n,
        extract_transcript_route ("https://www.youtube.com/shorts/" ++ "abcdefghijk")
          pl hy fetch api fetched = RouteResult.ok v t tl n → v = none) ∧
    (route_video_id ("https://www.youtube.com/embed/" ++ "abcdefghijk") = none ∧
      get_youtube_video_id ("https://www.youtube.com/embed/" ++ "abcdefghijk") =
        some "abcdefghijk" ∧
      ∀ pl hy fetch api fetched v t tl n,
        extract_transcript_route ("https://www.youtube.com/embed/" ++ "abcdefghijk")
          pl hy fetch api fetched = RouteResult.ok v t tl n → v = none) ∧
    (route_video_id ("https://www.youtube.com/v/" ++ "abcdefghijk") = none ∧
      get_youtube_video_id ("https://www.youtube.com/v/" ++ "abcdefghijk") =
        some "abcdefghijk" ∧
      ∀ pl hy fetch api fetched v t tl n,
        extract_transcript_route ("https://www.youtube.com/v/" ++ "abcdefghijk")
          pl hy fetch api fetched = RouteResult.ok v t tl n → v = none) :=
  c10_route_video_id "abcdefghijk" (by decide) (by decide)

/-! ## Claim C3: WebVTT round-trip -/

theorem tsChar_not_ws (c : Char) (h : isTsChar c = true) : c.isWhitespace = false := by
  by_contra hw
  simp only [Bool.not_eq_false, Char.isWhitespace, Bool.or_eq_true,
    decide_eq_true_eq] at hw
  rcases hw with ((rfl | rfl) | rfl) | rfl <;> simp [isTsChar] at h

theorem tsChar_ne_space (c : Char) (h : isTsChar c = true) : c ≠ ' ' := by
  intro hc; subst hc; simp [isTsChar] at h

theorem tsChar_ne_nl (c : Char) (h : isTsChar c = true) : c ≠ '\n' := by
  intro hc; subst hc; simp [isTsChar] at h

theorem dropWhile_append_head (p : Char → Bool) (l₁ l₂ : List Char)
    (h1 : l₁ ≠ []) (h2 : ∀ c ∈ l₁, p c = false) :
    (l₁ ++ l₂).dropWhile p = l₁ ++ l₂ := by
  cases l₁ with
  | nil => exact absurd rfl h1
  | cons c cs =>
    rw [List.cons_append, List.dropWhile_cons,
      if_neg (by simp [h2 c (List.mem_cons_self _ _)])]

theorem pyStrip_sandwich (s m t : List Char) (hs : s ≠ [])
    (hsa : ∀ c ∈ s, c.isWhitespace = false) (ht : t ≠ [])
    (hta : ∀ c ∈ t, c.isWhitespace = false) :
    pyStrip (s ++ m ++ t) = s ++ m ++ t := by
  rw [pyStrip, List.append_assoc,
    dropWhile_append_head Char.isWhitespace s (m ++ t) hs hsa]
  have hrev : (s ++ (m ++ t)).reverse = t.reverse ++ (m.reverse ++ s.reverse) := by
    simp [List.reverse_append]
  rw [hrev, dropWhile_append_head Char.isWhitespace t.reverse (m.reverse ++ s.reverse)
    (by simpa [List.reverse_eq_nil_iff] using ht)
    (fun c hc => hta c (List.mem_reverse.mp hc))]
  simp [List.reverse_append, List.append_assoc]

theorem containsSeq_append_right (pat t : List Char) (h : containsSeq pat t = true) :
    ∀ s : List Char, containsSeq pat (s ++ t) = true := by
  intro s
  induction s with
  | nil => simpa using h
  | cons c cs ih =>
    rw [List.cons_append, containsSeq, ih]
    simp

theorem splitSeq_no_head (a : Char) (sep : List Char) :
    ∀ l : List Char, (∀ c ∈ l, c ≠ a) → splitSeq a sep l = [l] := by
  intro l
  induction l with
  | nil => intro _; rfl
  | cons c rest ih =>
    intro h
    rw [splitSeq_cons, if_neg ?hcond]
    case hcond =>
      rw [leadsWith, if_neg (fun hh => h c (List.mem_cons_self _ _) hh.symm)]
      simp
    rw [ih (fun d hd => h d (List.mem_cons_of_mem _ hd))]

theorem splitSeq_append_sep (a : Char) (sep : List Char) (post : List Char) :
    ∀ pre : List Char, (∀ c ∈ pre, c ≠ a) →
      splitSeq a sep (pre ++ ((a :: sep) ++ post)) = pre :: splitSeq a sep post := by
  intro pre
  induction pre with
  | nil =>
    intro _
    rw [List.nil_append, List.cons_append, splitSeq_cons,
      if_pos (show leadsWith (a :: sep) (a :: (sep ++ post)) = true from
        leadsWith_append_self _ _),
      show (sep ++ post).drop sep.length = post from List.drop_left sep post]
  | cons c pre' ih =>
    intro h
    rw [List.cons_append, splitSeq_cons, if_neg ?hcond]
    case hcond =>
      rw [leadsWith, if_neg (fun hh => h c (List.mem_cons_self _ _) hh.symm)]
      simp
    rw [ih (fun d hd => h d (List.mem_cons_of_mem _ hd))]

theorem splitSeq_joinWith (a : Char) :
    ∀ (xs : List (List Char)) (x : List Char), (∀ c ∈ x, c ≠ a) →
      (∀ l ∈ xs, ∀ c ∈ l, c ≠ a) →
      splitSeq a [] (joinWith [a] (x :: xs)) = x :: xs := by
  intro xs
  induction xs with
  | nil => intro x hx _; exact splitSeq_no_head a [] x hx
  | cons y ys ih =>
    intro x hx hall
    have hj : joinWith [a] (x :: y :: ys) = (x ++ [a]) ++ joinWith [a] (y :: ys) := rfl
    rw [hj, List.append_assoc,
      splitSeq_append_sep a [] (joinWith [a] (y :: ys)) x hx,
      ih y (hall y (List.mem_cons_self _ _))
        (fun l hl => hall l (List.mem_cons_of_mem _ hl))]

theorem emitCue_cueSeg (c : Cue) :
    emitCue c.start.data (visibleLines c) =
      match cueSeg c with
      | none => []
      | some s => [s] := by
  rw [emitCue, cueSeg]
  by_cases h : (visibleLines c).isEmpty
  · rw [if_pos h, if_pos (by simpa [List.isEmpty_iff] using h)]
  · rw [if_neg h, if_neg (by simpa [List.isEmpty_iff] using h), string_mk_data]

theorem vttGo_collect_run :
    ∀ (tls : List String) (rest : List String) (st : List Char)
      (acc : List (List Char)),
      (∀ l ∈ tls, pyStrip l.data ≠ []) →
      vttGo (.collect st acc) (tls ++ "" :: rest) =
        emitCue st
          (acc ++ (tls.map (fun s => stripTags (pyStrip s.data))).filter
            (fun t => !t.isEmpty)) ++ vttGo .scan rest := by
  intro tls
  induction tls with
  | nil =>
    intro rest st acc _
    rw [List.nil_append, vttGo]
    rw [if_pos (by rfl)]
    simp
  | cons x xs ih =>
    intro rest st acc h
    have hx : pyStrip x.data ≠ [] := h x (List.mem_cons_self _ _)
    rw [List.cons_append, vttGo,
      if_neg (by simpa [List.isEmpty_iff] using hx)]
    rw [ih rest st _ (fun l hl => h l (List.mem_cons_of_mem _ hl))]
    by_cases ht : (stripTags (pyStrip x.data)).isEmpty
    · rw [if_pos ht]
      have : (stripTags (pyStrip x.data)) :: xs.map (fun s => stripTags (pyStrip s.data)) =
          (x :: xs).map (fun s => stripTags (pyStrip s.data)) := rfl
      rw [List.map_cons, List.filter_cons, if_neg (by simpa using ht)]
    · rw [if_neg ht]
      rw [List.map_cons, List.filter_cons, if_pos (by simpa using ht)]
      rw [List.append_assoc]
      rfl

theorem vttGo_scan_ts (st sp : String) (L : List String)
    (hst : wfTs st) (hsp : wfTs sp) :
    vttGo .scan ((st ++ " --> " ++ sp) :: L) = vttGo (.collect st.data []) L := by
  obtain ⟨hsne, hsts⟩ := hst
  obtain ⟨htne, htts⟩ := hsp
  have hdata : (st ++ " --> " ++ sp).data = (st.data ++ " --> ".data) ++ sp.data := by
    rw [String.data_append, String.data_append]
  have hstrip : pyStrip ((st.data ++ " --> ".data) ++ sp.data) =
      (st.data ++ " --> ".data) ++ sp.data :=
    pyStrip_sandwich st.data " --> ".data sp.data hsne
      (fun d hd => tsChar_not_ws d (hsts d hd)) htne
      (fun d hd => tsChar_not_ws d (htts d hd))
  have harrow : containsSeq "-->".data (" --> ".data ++ sp.data) = true := by
    show containsSeq "-->".data (' ' :: ('-' :: '-' :: '>' :: ' ' :: sp.data)) = true
    rw [containsSeq]
    refine Bool.or_eq_true_iff.mpr (Or.inr ?_)
    rw [containsSeq]
    exact Bool.or_eq_true_iff.mpr
      (Or.inl (leadsWith_append_self "-->".data (' ' :: sp.data)))
  have hcontain : containsSeq "-->".data ((st.data ++ " --> ".data) ++ sp.data) = true := by
    rw [List.append_assoc]
    exact containsSeq_append_right "-->".data (" --> ".data ++ sp.data) harrow st.data
  have hsplit : splitSeq ' ' "--> ".data ((st.data ++ " --> ".data) ++ sp.data) =
      st.data :: [sp.data] := by
    rw [List.append_assoc]
    have h1 := splitSeq_append_sep ' ' "--> ".data sp.data st.data
      (fun d hd => tsChar_ne_space d (hsts d hd))
    rw [splitSeq_no_head ' ' "--> ".data sp.data
      (fun d hd => tsChar_ne_space d (htts d hd))] at h1
    exact h1
  have hdw : ((sp.data).dropWhile Char.isWhitespace).isEmpty = false := by
    rw [dropWhile_eq_self_of_all Char.isWhitespace sp.data
      (fun d hd => tsChar_not_ws d (htts d hd))]
    cases hsp2 : sp.data with
    | nil => exact absurd hsp2 htne
    | cons u us => rfl
  have hpst : pyStrip st.data = st.data :=
    pyStrip_all_nonws st.data (fun d hd => tsChar_not_ws d (hsts d hd))
  rw [vttGo]
  simp only [hdata, hstrip, hcontain, hsplit, hdw, hpst, eq_self_iff_true,
    if_true, Bool.false_eq_true, if_false]

theorem vttGo_blocks : ∀ (cues : List Cue), (∀ c ∈ cues, wfCue c) →
    vttGo .scan (vttBlocks cues) = cues.filterMap cueSeg := by
  intro cues
  induction cues with
  | nil => intro _; rfl
  | cons c cs ih =>
    intro hwf
    obtain ⟨hst, hsp, htl⟩ := hwf c (List.mem_cons_self _ _)
    have hb : vttBlocks (c :: cs) =
        (c.start ++ " --> " ++ c.stop) :: (c.textLines ++ "" :: vttBlocks cs) := by
      simp [vttBlocks, cueLines]
    rw [hb, vttGo_scan_ts c.start c.stop _ ⟨hst.1, hst.2⟩ ⟨hsp.1, hsp.2⟩,
      vttGo_collect_run c.textLines (vttBlocks cs) c.start.data []
        (fun l hl => (htl l hl).1),
      List.nil_append]
    have hv : (c.textLines.map (fun s => stripTags (pyStrip s.data))).filter
        (fun t => !t.isEmpty) = visibleLines c := rfl
    rw [hv, emitCue_cueSeg c, List.filterMap_cons,
      ih (fun d hd => hwf d (List.mem_cons_of_mem _ hd))]
    cases cueSeg c <;> simp

theorem vttBlocks_no_nl : ∀ (cues : List Cue), (∀ c ∈ cues, wfCue c) →
    ∀ s ∈ vttBlocks cues, ∀ ch ∈ s.data, ch ≠ '\n' := by
  intro cues
  induction cues with
  | nil => intro _ s hs; simp [vttBlocks] at hs
  | cons c cs ih =>
    intro hwf s hs
    obtain ⟨hst, hsp, htl⟩ := hwf c (List.mem_cons_self _ _)
    rw [vttBlocks] at hs
    rcases List.mem_append.mp hs with hs | hs
    · rcases List.mem_append.mp hs with hs | hs
      · rw [cueLines] at hs
        rcases List.mem_cons.mp hs with rfl | hs
        · intro ch hch
          rw [String.data_append, String.data_append] at hch
          rcases List.mem_append.mp hch with hch | hch
          · rcases List.mem_append.mp hch with hch | hch
            · exact tsChar_ne_nl ch (hst.2 ch hch)
            · exact (show ∀ x ∈ (" --> " : String).data, x ≠ '\n' by decide) ch hch
          · exact tsChar_ne_nl ch (hsp.2 ch hch)
        · exact fun ch hch => (htl s hs).2 ch hch
      · rcases List.mem_singleton.mp hs with rfl
        intro ch hch
        simp at hch
    · exact ih (fun d hd => hwf d (List.mem_cons_of_mem _ hd)) s hs

theorem map_mk_data (l : List String) : (l.map String.data).map String.mk = l := by
  induction l with
  | nil => rfl
  | cons s rest ih => simp [string_mk_data, ih]

theorem renderVtt_lines (cues : List Cue) (hwf : ∀ c ∈ cues, wfCue c) :
    (splitSeq '\n' [] (renderVtt cues).data).map String.mk =
      "WEBVTT" :: "" :: vttBlocks cues := by
  have hdata : (renderVtt cues).data =
      joinWith ['\n'] ("WEBVTT".data :: "".data :: (vttBlocks cues).map String.data) := rfl
  rw [hdata, splitSeq_joinWith '\n' ("".data :: (vttBlocks cues).map String.data)
    "WEBVTT".data (by decide) ?hrest]
  case hrest =>
    intro l hl
    rcases List.mem_cons.mp hl with rfl | hl
    · intro c hc; simp at hc
    · rcases List.mem_map.mp hl with ⟨s, hs, rfl⟩
      exact vttBlocks_no_nl cues hwf s hs
  show List.map String.mk (List.map String.data ("WEBVTT" :: "" :: vttBlocks cues)) =
    "WEBVTT" :: "" :: vttBlocks cues
  exact map_mk_data _

/-- Claim C3: a well-formed WebVTT payload of cues parses to exactly the
segments of its cues, in order: each cue with at least one text line that
survives markup-tag stripping yields one segment carrying the start
timestamp verbatim and the stripped text lines joined by single spaces,
and a cue whose text lines contain only markup yields no segment (the
`filterMap` through `cueSeg`); in particular when every cue has surviving
text the result is exactly one segment per cue. -/
theorem c3_vtt_roundtrip (cues : List Cue) (hwf : ∀ c ∈ cues, wfCue c) :
    parse_vtt_content (renderVtt cues) = cues.filterMap cueSeg ∧
    ((∀ c ∈ cues, visibleLines c ≠ []) →
      parse_vtt_content (renderVtt cues) =
        cues.map (fun c => ⟨c.start, String.mk (joinWith [' '] (visibleLines c))⟩)) := by
  have hmain : parse_vtt_content (renderVtt cues) = cues.filterMap cueSeg := by
    rw [parse_vtt_content, parseVttLines, renderVtt_lines cues hwf]
    have hW : vttGo VttMode.scan ("WEBVTT" :: "" :: vttBlocks cues) =
        vttGo VttMode.scan (vttBlocks cues) := rfl
    rw [hW, vttGo_blocks cues hwf]
  refine ⟨hmain, fun hvis => ?_⟩
  rw [hmain]
  have hfm : ∀ l : List Cue, (∀ c ∈ l, visibleLines c ≠ []) →
      l.filterMap cueSeg =
        l.map (fun c => ⟨c.start, String.mk (joinWith [' '] (visibleLines c))⟩) := by
    intro l
    induction l with
    | nil => intro _; rfl
    | cons c cs ih =>
      intro hv
      have hc : cueSeg c = some ⟨c.start, String.mk (joinWith [' '] (visibleLines c))⟩ := by
        rw [cueSeg, if_neg (by simpa [List.isEmpty_iff] using hv c (List.mem_cons_self _ _))]
      rw [List.filterMap_cons, hc, List.map_cons,
        ih (fun d hd => hv d (List.mem_cons_of_mem _ hd))]
  exact hfm cues hvis

theorem c3_vtt_roundtrip_witness :
    parse_vtt_content (renderVtt
        [⟨"00:00:01.000", "00:00:02.000", ["Hello <b>world</b>", "second"]⟩,
          ⟨"00:00:03.000", "00:00:04.000", ["<i></i>"]⟩]) =
      List.filterMap cueSeg
        [⟨"00:00:01.000", "00:00:02.000", ["Hello <b>world</b>", "second"]⟩,
          ⟨"00:00:03.000", "00:00:04.000", ["<i></i>"]⟩] ∧
    ((∀ c ∈ [(⟨"00:00:01.000", "00:00:02.000", ["Hello <b>world</b>", "second"]⟩ : Cue),
          ⟨"00:00:03.000", "00:00:04.000", ["<i></i>"]⟩], visibleLines c ≠ []) →
      parse_vtt_content (renderVtt
          [⟨"00:00:01.000", "00:00:02.000", ["Hello <b>world</b>", "second"]⟩,
            ⟨"00:00:03.000", "00:00:04.000", ["<i></i>"]⟩]) =
        List.map (fun c => ⟨c.start, String.mk (joinWith [' '] (visibleLines c))⟩)
          [⟨"00:00:01.000", "00:00:02.000", ["Hello <b>world</b>", "second"]⟩,
            ⟨"00:00:03.000", "00:00:04.000", ["<i></i>"]⟩]) :=
  c3_vtt_roundtrip
    [⟨"00:00:01.000", "00:00:02.000", ["Hello <b>world</b>", "second"]⟩,
      ⟨"00:00:03.000", "00:00:04.000", ["<i></i>"]⟩] (by decide)

/-! ## Claim C4: timed-text timestamp rendering -/

theorem floor_dec_div (m : ℤ) (e : ℕ) (k : ℕ) :
    ⌊((m : ℚ) / (10:ℚ)^e) / (k : ℚ)⌋ = m / ((k : ℤ) * 10 ^ e) := by
  have h1 : ((m : ℚ) / (10:ℚ)^e) / (k:ℚ) = (m : ℚ) / ((k * 10 ^ e : ℕ) : ℚ) := by
    push_cast
    rw [div_div]
    ring_nf
  rw [h1, Rat.floor_intCast_div_natCast]
  congr 1
  push_cast
  ring

theorem rheQ_int (M : ℤ) (e : ℕ) :
    rheQ ((M : ℚ) / (10:ℚ)^e) =
      (if 2 * (M - (10:ℤ)^e * (M / (10:ℤ)^e)) < (10:ℤ)^e then M / (10:ℤ)^e
       else if (10:ℤ)^e < 2 * (M - (10:ℤ)^e * (M / (10:ℤ)^e)) then M / (10:ℤ)^e + 1
       else if (M / (10:ℤ)^e) % 2 = 0 then M / (10:ℤ)^e else M / (10:ℤ)^e + 1) := by
  have hDQ : (0:ℚ) < (10:ℚ)^e := pow_pos (by norm_num) e
  have hfl : ⌊(M : ℚ) / (10:ℚ)^e⌋ = M / (10:ℤ)^e := by
    have h := floor_dec_div M e 1
    simpa using h
  have hfrac : (M:ℚ)/(10:ℚ)^e - ((M / (10:ℤ)^e : ℤ) : ℚ) =
      ((M - (10:ℤ)^e * (M / (10:ℤ)^e) : ℤ) : ℚ) / (10:ℚ)^e := by
    push_cast
    field_simp
  have hlt : ((M:ℚ)/(10:ℚ)^e - ((M / (10:ℤ)^e : ℤ) : ℚ) < 1/2) ↔
      (2 * (M - (10:ℤ)^e * (M / (10:ℤ)^e)) < (10:ℤ)^e) := by
    rw [hfrac, div_lt_div_iff₀ hDQ (by norm_num : (0:ℚ) < 2)]
    constructor
    · intro h
      have : ((M - (10:ℤ)^e * (M / (10:ℤ)^e) : ℤ) : ℚ) * 2 < ((10:ℤ)^e : ℚ) := by
        push_cast at h ⊢
        linarith
      have := (mul_comm ((M - (10:ℤ)^e * (M / (10:ℤ)^e) : ℤ) : ℚ) 2) ▸ this
      exact_mod_cast this
    · intro h
      have h2 : ((2 * (M - (10:ℤ)^e * (M / (10:ℤ)^e)) : ℤ) : ℚ) < (((10:ℤ)^e : ℤ) : ℚ) := by
        exact_mod_cast h
      push_cast at h2 ⊢
      linarith
  have hgt : ((1:ℚ)/2 < (M:ℚ)/(10:ℚ)^e - ((M / (10:ℤ)^e : ℤ) : ℚ)) ↔
      ((10:ℤ)^e < 2 * (M - (10:ℤ)^e * (M / (10:ℤ)^e))) := by
    rw [hfrac, div_lt_div_iff₀ (by norm_num : (0:ℚ) < 2) hDQ]
    constructor
    · intro h
      have h2 : (((10:ℤ)^e : ℤ) : ℚ) < ((2 * (M - (10:ℤ)^e * (M / (10:ℤ)^e)) : ℤ) : ℚ) := by
        push_cast at h ⊢
        linarith
      exact_mod_cast h2
    · intro h
      have h2 : (((10:ℤ)^e : ℤ) : ℚ) < ((2 * (M - (10:ℤ)^e * (M / (10:ℤ)^e)) : ℤ) : ℚ) := by
        exact_mod_cast h
      push_cast at h2 ⊢
      linarith
  rw [rheQ, hfl]
  simp only [hlt, hgt]

theorem seconds_to_timestamp_spec (d : Dec) :
    seconds_to_timestamp d = specTimestamp d.toRat := by
  obtain ⟨m, e⟩ := d
  have hfl3600 : ⌊Dec.toRat ⟨m, e⟩ / 3600⌋ = m / (3600 * (10:ℤ)^e) := by
    have h := floor_dec_div m e 3600
    unfold Dec.toRat
    push_cast at h ⊢
    exact h
  have hfl60 : ⌊Dec.toRat ⟨m, e⟩ / 60⌋ = m / (60 * (10:ℤ)^e) := by
    have h := floor_dec_div m e 60
    unfold Dec.toRat
    push_cast at h ⊢
    exact h
  have hmodH : Dec.toRat ⟨m, e⟩ - 3600 * ((m / (3600 * (10:ℤ)^e) : ℤ) : ℚ) =
      ((m - 3600 * (10:ℤ)^e * (m / (3600 * (10:ℤ)^e)) : ℤ) : ℚ) / (10:ℚ)^e := by
    unfold Dec.toRat
    have hne : ((10:ℚ))^e ≠ 0 := by positivity
    push_cast
    field_simp
    ring
  have hminutes : ⌊(Dec.toRat ⟨m, e⟩ - 3600 * ⌊Dec.toRat ⟨m, e⟩ / 3600⌋) / 60⌋ =
      (m - 3600 * (10:ℤ)^e * (m / (3600 * (10:ℤ)^e))) / (60 * (10:ℤ)^e) := by
    rw [hfl3600, hmodH]
    have h := floor_dec_div (m - 3600 * (10:ℤ)^e * (m / (3600 * (10:ℤ)^e))) e 60
    push_cast at h ⊢
    exact h
  have hsecs : Dec.toRat ⟨m, e⟩ - 60 * ⌊Dec.toRat ⟨m, e⟩ / 60⌋ =
      ((m % (60 * (10:ℤ)^e) : ℤ) : ℚ) / (10:ℚ)^e := by
    rw [hfl60, Int.emod_def]
    unfold Dec.toRat
    have hne : ((10:ℚ))^e ≠ 0 := by positivity
    push_cast
    field_simp
    ring
  have hrs : renderSecs3 (Dec.toRat ⟨m, e⟩ - 60 * ⌊Dec.toRat ⟨m, e⟩ / 60⌋) =
      fmt063 (m % (60 * (10:ℤ)^e)) ((10:ℤ)^e) := by
    rw [hsecs, renderSecs3, fmt063]
    have hmul : ((m % (60 * (10:ℤ)^e) : ℤ) : ℚ) / (10:ℚ)^e * 1000 =
        ((m % (60 * (10:ℤ)^e) * 1000 : ℤ) : ℚ) / (10:ℚ)^e := by
      push_cast
      ring
    rw [hmul, rheQ_int (m % (60 * (10:ℤ)^e) * 1000) e]
  rw [seconds_to_timestamp, specTimestamp, hminutes, hrs, hfl3600]

/-- Claim C4: the timestamp emitted for a timed-text element with numeric
start `s` is exactly the claim's fixed-point rendering — hours
`⌊s / 3600⌋`, minutes `⌊(s mod 3600) / 60⌋`, seconds `s mod 60` rendered
zero-padded with three decimal places (`specTimestamp`): the source's
`seconds_to_timestamp` agrees with it on every exact decimal, every segment
emitted by the element loop carries such a timestamp, and in particular a
`start="12.5"` element converts to `00:00:12.500`. -/
theorem c4_fixed_point_timestamp :
    (∀ d : Dec, seconds_to_timestamp d = specTimestamp d.toRat) ∧
    (∀ (elems : List TextElem) (seg : Segment), seg ∈ parse_srv_elems elems →
      ∃ e ∈ elems, ∃ q : Dec, parseFloat? (e.start.getD "0") = some q ∧
        seg.timestamp = specTimestamp q.toRat) ∧
    parse_srv_content (some [⟨some "12.5", none, some "hi"⟩]) =
      [⟨"00:00:12.500", "hi"⟩] := by
  refine ⟨seconds_to_timestamp_spec, ?_, by decide⟩
  intro elems
  induction elems with
  | nil => intro seg h; simp [parse_srv_elems] at h
  | cons e es ih =>
    intro seg h
    rw [parse_srv_elems] at h
    rcases List.mem_append.mp h with h | h
    · cases hq : parseFloat? (e.start.getD "0") with
      | none => simp only [hq] at h; simp at h
      | some q =>
        simp only [hq] at h
        by_cases ht : (pyStrip (e.content.getD "").data).isEmpty
        · rw [if_pos ht] at h; simp at h
        · rw [if_neg ht] at h
          rcases List.mem_singleton.mp h with rfl
          exact ⟨e, List.mem_cons_self _ _, q, hq, seconds_to_timestamp_spec q⟩
    · obtain ⟨e', he', q, hq, hts⟩ := ih seg h
      exact ⟨e', List.mem_cons_of_mem _ he', q, hq, hts⟩

theorem c4_fixed_point_timestamp_witness :
    ∃ e ∈ [(⟨some "12.5", none, some "hi"⟩ : TextElem)], ∃ q : Dec,
      parseFloat? (e.start.getD "0") = some q ∧
      (⟨"00:00:12.500", "hi"⟩ : Segment).timestamp = specTimestamp q.toRat :=
  c4_fixed_point_timestamp.2.1 [⟨some "12.5", none, some "hi"⟩]
    ⟨"00:00:12.500", "hi"⟩ (by decide)
